import Mathlib

/-!
Verification development for the CryptoRebound ranking backend.

Numeric values are modelled over `ℚ`; timestamps are rational numbers of
seconds.  Python `float` rounding is out of scope for the properties below;
`round1` models `round(x, 1)` exactly on rationals (half-up instead of the
half-even tie rule, which no property here depends on).  Python `None` is
modelled by `Option`, and Python truthiness of a numeric value `v`
(`if v:`) is `v ≠ 0` on present values.
-/

namespace CryptoRebound

/-- Model of Python `round(x, 1)` over the rationals. -/
def round1 (x : ℚ) : ℚ := ((round (x * 10) : ℤ) : ℚ) / 10

/-- Provider identifiers of `db_models.DataSource`. -/
inductive DataSrc where
  | binance
  | yahooFinance
  | coingecko
  | coinlore
  | manual
deriving DecidableEq, Repr

/-- Quality levels of `db_models.DataQuality`. -/
inductive DataQuality where
  | high
  | medium
  | low
  | invalid
deriving DecidableEq, Repr

/-- Ranking periods handled by the scoring service.  `other` stands for any
string other than the eight canonical period labels (every function in the
source only distinguishes those eight). -/
inductive Period where
  | p1h
  | p24h
  | p7d
  | p30d
  | p90d
  | p180d
  | p270d
  | p365d
  | other
deriving DecidableEq, Repr

/-! ## Scoring service (`scoring_service.py`) -/

/-- Model of `models.CryptoCurrency` restricted to the fields read or written
by `ScoringService` (the string field `recovery_potential_75` and the derived
`drawdown_percentage`, which no claim reads, are omitted; both are functions
of the base fields only). -/
structure Crypto where
  symbol : String
  name : String
  price_usd : ℚ
  market_cap_usd : Option ℚ
  volume_24h_usd : Option ℚ
  percent_change_1h : Option ℚ
  percent_change_24h : Option ℚ
  percent_change_7d : Option ℚ
  percent_change_30d : Option ℚ
  rank : Option ℕ
  historical_prices : List (String × ℚ)
  max_price_1y : Option ℚ
  min_price_1y : Option ℚ
  performance_score : Option ℚ
  drawdown_score : Option ℚ
  rebound_potential_score : Option ℚ
  momentum_score : Option ℚ
  total_score : Option ℚ
deriving DecidableEq, Repr

/-- Association-list lookup used for the `historical_prices` dict. -/
def lookupQ (l : List (String × ℚ)) (k : String) : Option ℚ :=
  match l with
  | [] => none
  | (k0, v) :: rest => if k0 = k then some v else lookupQ rest k

/-- Model of `ScoringService._get_period_multiplier`. -/
def periodMultiplier : Period → ℚ
  | .p1h => 1
  | .p24h => 9/10
  | .p7d => 8/10
  | .p30d => 7/10
  | .p90d => 6/10
  | .p180d => 5/10
  | .p270d => 4/10
  | .p365d => 35/100
  | .other => 8/10

/-- Hours of each period in `_intelligent_fallback_performance`
(`period_hours_map`, default 24 for unknown labels). -/
def periodHours : Period → ℚ
  | .p1h => 1
  | .p24h => 24
  | .p7d => 168
  | .p30d => 720
  | .p90d => 2160
  | .p180d => 4320
  | .p270d => 6480
  | .p365d => 8760
  | .other => 24

/-- Model of `ScoringService._calculate_scaling_factor`. -/
def scalingFactor (fromH toH perf : ℚ) : ℚ :=
  if fromH = toH then 1
  else
    let r := toH / fromH
    if 1 < r then
      let base := min 2 (1 + (r - 1) * (3/10))
      let damp := if |perf| < 10 then 1 else max (7/10) (1 - |perf| * (1/100))
      base * damp
    else max (3/10) r

/-- Available `(performance, hours)` pairs in
`_intelligent_fallback_performance` (order 1h, 24h, 7d, 30d). -/
def availablePeriods (c : Crypto) : List (ℚ × ℚ) :=
  (match c.percent_change_1h with | some v => [(v, 1)] | none => []) ++
  (match c.percent_change_24h with | some v => [(v, 24)] | none => []) ++
  (match c.percent_change_7d with | some v => [(v, 168)] | none => []) ++
  (match c.percent_change_30d with | some v => [(v, 720)] | none => [])

/-- Model of `ScoringService._intelligent_fallback_performance`; Python
`min(..., key=...)` keeps the first minimum, modelled by a left fold with a
strict comparison. -/
def intelligentFallback (c : Crypto) (p : Period) : ℚ :=
  match availablePeriods c with
  | [] => 0
  | x :: xs =>
      let target := periodHours p
      let closest := xs.foldl
        (fun best y => if |y.2 - target| < |best.2 - target| then y else best) x
      closest.1 * scalingFactor closest.2 target closest.1

/-- Model of `ScoringService._calculate_period_performance_from_historical`. -/
def histPerf (c : Crypto) (p : Period) : Option ℚ :=
  let key? : Option String :=
    match p with
    | .p90d => some "90d"
    | .p180d => some "180d"
    | .p270d => some "270d"
    | .p365d => some "365d"
    | _ => none
  match key? with
  | none => none
  | some k =>
      match lookupQ c.historical_prices k with
      | none => none
      | some h => if h ≠ 0 ∧ 0 < h then some ((c.price_usd - h) / h * 100) else none

/-- Direct `performance_map` lookup in `_fast_performance_score`; an entry
holding `None` (180d/270d/365d) and a missing key (`other`) both give `none`. -/
def perfMapLookup (c : Crypto) : Period → Option ℚ
  | .p1h => c.percent_change_1h
  | .p24h => c.percent_change_24h
  | .p7d => c.percent_change_7d
  | .p30d => c.percent_change_30d
  | .p90d => c.percent_change_30d
  | .p180d => none
  | .p270d => none
  | .p365d => none
  | .other => none

/-- Model of `ScoringService._fast_performance_score`. -/
def fastPerformanceScore (c : Crypto) (p : Period) : ℚ :=
  let base0 := perfMapLookup c p
  let base1 :=
    if base0 = none ∧ c.historical_prices ≠ [] then histPerf c p else base0
  let perf := match base1 with | some v => v | none => intelligentFallback c p
  let mult := periodMultiplier p
  if 0 ≤ perf then min 100 (50 + perf * 2 * mult)
  else max 5 (50 + perf * 2 * mult)

/-- Model of `ScoringService._fast_drawdown_score`.  The Python guard
`not max or not price or max <= 0` returns the neutral 50. -/
def fastDrawdownScore (c : Crypto) : ℚ :=
  match c.max_price_1y with
  | none => 50
  | some m =>
      if m ≤ 0 ∨ c.price_usd = 0 then 50
      else
        let dd := (m - c.price_usd) / m * 100
        if dd ≤ 10 then 100
        else if dd ≤ 50 then 90 - dd
        else max 5 (40 - (dd - 50) * (5/10))

/-- Market-cap multiplier inside `_fast_rebound_potential_score`
(`market_cap_millions` thresholds 100 and 1000). -/
def capMultiplier (marketCap : Option ℚ) : ℚ :=
  let mcm := (marketCap.getD 0) / 1000000
  if mcm < 100 then 12/10 else if mcm < 1000 then 1 else 8/10

/-- Banded base score inside `_fast_rebound_potential_score`. -/
def reboundBase (dist : ℚ) : ℚ :=
  if 70 ≤ dist then 100
  else if 40 ≤ dist then 80
  else if 20 ≤ dist then 60
  else 30

/-- Model of `ScoringService._fast_rebound_potential_score`. -/
def fastReboundPotentialScore (c : Crypto) : ℚ :=
  match c.max_price_1y with
  | none => 50
  | some m =>
      if m ≤ 0 ∨ c.price_usd = 0 then 50
      else
        let dist := (m - c.price_usd) / m * 100
        min 100 (reboundBase dist * capMultiplier c.market_cap_usd)

/-- Model of `ScoringService._fast_momentum_score`. -/
def fastMomentumScore (c : Crypto) : ℚ :=
  let st := c.percent_change_24h.getD 0
  let mt := c.percent_change_7d.getD 0
  let trend := st - mt / 7
  let volumeFactor :=
    match c.volume_24h_usd, c.market_cap_usd with
    | some v, some mc =>
        if v ≠ 0 ∧ 0 < mc then
          let vr := v / mc
          if 1/10 < vr then 12/10 else if vr < 1/100 then 8/10 else 1
        else 1
    | _, _ => 1
  let base := max 5 (min 100 (50 + trend * 5))
  base * volumeFactor

/-- Model of `ScoringService._calculate_total_score` applied to the four
freshly computed sub-scores (weights 0.15 / 0.15 / 0.60 / 0.25). -/
def totalOf (perf dd rb mm : ℚ) : ℚ :=
  round1 (perf * (15/100) + dd * (15/100) + rb * (60/100) + mm * (25/100))

/-- One iteration of the scoring loop in `calculate_scores`: compute and
attach the four sub-scores and the weighted total. -/
def scoreCrypto (c : Crypto) (p : Period) : Crypto :=
  let perf := fastPerformanceScore c p
  let dd := fastDrawdownScore c
  let rb := fastReboundPotentialScore c
  let mm := fastMomentumScore c
  { c with
    performance_score := some perf
    drawdown_score := some dd
    rebound_potential_score := some rb
    momentum_score := some mm
    total_score := some (totalOf perf dd rb mm) }

/-- Sort key of `valid_cryptos.sort(key=lambda x: x.total_score or 0,
reverse=True)`. -/
def sortKey (c : Crypto) : ℚ := c.total_score.getD 0

/-- Stable descending insertion: an element of the accumulated (later-input)
list stays in front of `x` exactly when its key is strictly larger, so equal
keys keep input order.  Python `list.sort` is a stable sort; any stable sort
descending on `sortKey` produces this unique result. -/
def insertDesc (x : Crypto) : List Crypto → List Crypto
  | [] => [x]
  | y :: ys => if sortKey x < sortKey y then y :: insertDesc x ys else x :: y :: ys

/-- Stable descending sort by `sortKey`. -/
def sortDesc : List Crypto → List Crypto
  | [] => []
  | x :: xs => insertDesc x (sortDesc xs)

/-- Rank assignment loop `for i, crypto in enumerate(valid): crypto.rank = i+1`,
starting from `n`. -/
def assignRanksFrom (n : ℕ) : List Crypto → List Crypto
  | [] => []
  | c :: cs => { c with rank := some n } :: assignRanksFrom (n + 1) cs

/-- Model of `ScoringService.calculate_scores`: drop records without a
strictly positive price (`not price or price <= 0`), score the rest, sort by
total score descending (stable), and assign ranks 1..N. -/
def calculateScores (l : List Crypto) (p : Period) : List Crypto :=
  assignRanksFrom 1
    (sortDesc ((l.filter (fun c => decide (0 < c.price_usd))).map (scoreCrypto · p)))

/-- A record with its rank slot cleared, used to compare sorted outputs
modulo the rank assignment. -/
def clearRank (c : Crypto) : Crypto := { c with rank := none }

/-- The scored survivors of the validity filter, before sorting. -/
def scoredPool (l : List Crypto) (p : Period) : List Crypto :=
  (l.filter (fun c => decide (0 < c.price_usd))).map (scoreCrypto · p)

/-! ## Quality service (`data_quality_service.py`) -/

/-- Candidate crypto dict submitted to `DataQualityService` / the store path.
Absent dict keys and keys holding `None` are both modelled as `none` (the
source treats them identically everywhere it reads them). -/
structure Candidate where
  symbol : Option String
  name : Option String
  price_usd : Option ℚ
  market_cap_usd : Option ℚ
  volume_24h_usd : Option ℚ
  circulating_supply : Option ℚ
  percent_change_1h : Option ℚ
  percent_change_24h : Option ℚ
  percent_change_7d : Option ℚ
  percent_change_30d : Option ℚ
  max_price_1y : Option ℚ
  min_price_1y : Option ℚ
  data_sources : List DataSrc
  source : Option DataSrc
  error_count : ℕ
  last_updated : Option ℚ
  source_timestamps : List (String × ℚ)
deriving DecidableEq, Repr

/-- Python `str.upper()` over the character list (the repository's symbols
are ASCII, where this agrees with `String.toUpper`). -/
def strUpper (s : String) : String := String.mk (s.data.map Char.toUpper)

/-- Python `str.strip()` over the character list: drop whitespace from both
ends. -/
def strStrip (s : String) : String :=
  String.mk (((s.data.dropWhile Char.isWhitespace).reverse.dropWhile
    Char.isWhitespace).reverse)

/-- Python truthiness of an optional numeric value. -/
def truthy (v : Option ℚ) : Bool :=
  match v with
  | none => false
  | some x => x != 0

/-- Character class of the symbol regex `[A-Z0-9]`. -/
def symbolChar (ch : Char) : Bool :=
  ch.isDigit || (Nat.ble 65 ch.toNat && Nat.ble ch.toNat 90)

/-- Test of the regex `^[A-Z0-9]{1,10}$` on `symbol.upper().strip()`. -/
def validSymbolFormat (s : String) : Bool :=
  let t := strStrip (strUpper s)
  Nat.ble 1 t.length && Nat.ble t.length 10 && t.toList.all symbolChar

/-- Range check of one entry of `validation_rules`: a missing value passes
unless required; a present value must lie in `[lo, hi]`. -/
def checkRuleField (v : Option ℚ) (lo hi : ℚ) (required : Bool) : Bool :=
  match v with
  | none => !required
  | some x => decide (lo ≤ x) && decide (x ≤ hi)

/-- Model of `DataQualityService._validate_basic_rules` (result Boolean only;
the detail dict carries no behavior). -/
def validateBasicRules (c : Candidate) : Bool :=
  match c.symbol with
  | none => false
  | some s =>
      if s.length = 0 then false
      else
        validSymbolFormat s &&
        checkRuleField c.price_usd (1/10000000) 1000000 true &&
        checkRuleField c.market_cap_usd 1000 10000000000000 false &&
        checkRuleField c.volume_24h_usd 0 1000000000000 false &&
        checkRuleField c.percent_change_24h (-999/10) 10000 false &&
        (if truthy c.price_usd && truthy c.market_cap_usd then
          decide ((c.market_cap_usd.getD 0) / (c.price_usd.getD 0) ≤ 1000000000000)
        else true)

/-- Model of `_calculate_completeness_score`: essential fields weight 2,
important fields weight 1, maximum 15 points, scaled to 100 and clamped. -/
def completenessScore (c : Candidate) : ℚ :=
  let filled : ℚ :=
    (if c.symbol.isSome then 2 else 0) + (if c.name.isSome then 2 else 0) +
    (if c.price_usd.isSome then 2 else 0) + (if c.market_cap_usd.isSome then 2 else 0) +
    (if c.percent_change_24h.isSome then 2 else 0) +
    (if c.volume_24h_usd.isSome then 1 else 0) + (if c.percent_change_7d.isSome then 1 else 0) +
    (if c.percent_change_30d.isSome then 1 else 0) + (if c.max_price_1y.isSome then 1 else 0) +
    (if c.min_price_1y.isSome then 1 else 0)
  min 100 (filled / 15 * 100)

/-- Age-to-score step function of `_calculate_freshness_score`. -/
def freshnessStep (ageMinutes : ℚ) : ℚ :=
  if ageMinutes ≤ 5 then 100
  else if ageMinutes ≤ 30 then 90
  else if ageMinutes ≤ 60 then 70
  else if ageMinutes ≤ 240 then 50
  else if ageMinutes ≤ 1440 then 25
  else 5

/-- Model of `_calculate_freshness_score` at clock `now`: the age of the most
recent among `last_updated` and all `source_timestamps` values, 0 when no
timestamp exists. -/
def freshnessScore (now : ℚ) (c : Candidate) : ℚ :=
  let ts :=
    (match c.last_updated with | some t => [t] | none => []) ++
    c.source_timestamps.map Prod.snd
  match ts with
  | [] => 0
  | t :: rest => freshnessStep ((now - rest.foldl max t) / 60)

/-- Sample-variance comparison `statistics.stdev(l) > bound` for `bound ≥ 0`,
expressed without square roots (`stdev l > b ↔ var l > b²`). -/
def sampleStdevGT (l : List ℚ) (bound : ℚ) : Bool :=
  let n : ℚ := l.length
  let mean := l.sum / n
  let ss := (l.map (fun x => (x - mean) ^ 2)).sum
  decide (bound ^ 2 < ss / (n - 1))

/-- Present percent-change values in the order 1h, 24h, 7d, 30d. -/
def presentChanges (c : Candidate) : List ℚ :=
  (match c.percent_change_1h with | some v => [v] | none => []) ++
  (match c.percent_change_24h with | some v => [v] | none => []) ++
  (match c.percent_change_7d with | some v => [v] | none => []) ++
  (match c.percent_change_30d with | some v => [v] | none => [])

/-- Supply-mismatch penalty of `_calculate_consistency_score`: 20 points when
price times circulating supply deviates from the market cap by more than
10%. -/
def supplyPenalty (c : Candidate) : ℚ :=
  if truthy c.price_usd && truthy c.market_cap_usd && truthy c.circulating_supply then
    let p := c.price_usd.getD 0
    let m := c.market_cap_usd.getD 0
    let sup := c.circulating_supply.getD 0
    if 1/10 < |m - p * sup| / m then 20 else 0
  else 0

/-- Extreme-change penalty: 15 points when at least two changes are present
and any exceeds 1000% in magnitude. -/
def extremeChangePenalty (c : Candidate) : ℚ :=
  if Nat.ble 2 (presentChanges c).length &&
      (presentChanges c).any (fun x => decide (1000 < |x|)) then 15 else 0

/-- High-variance penalty: 10 points when at least three changes are present
and their sample standard deviation exceeds 500. -/
def variancePenalty (c : Candidate) : ℚ :=
  if Nat.ble 3 (presentChanges c).length && sampleStdevGT (presentChanges c) 500 then 10
  else 0

/-- Extrema penalty: 10 points each when the current price exceeds the yearly
high by more than 10% or undercuts the yearly low by more than 10%. -/
def extremaPenalty (c : Candidate) : ℚ :=
  if truthy c.max_price_1y && truthy c.min_price_1y && truthy c.price_usd then
    (if (c.max_price_1y.getD 0) * (11/10) < c.price_usd.getD 0 then 10 else 0) +
    (if c.price_usd.getD 0 < (c.min_price_1y.getD 0) * (9/10) then 10 else 0)
  else 0

/-- Model of `_calculate_consistency_score`: start at 100, subtract the
supply-mismatch (20), extreme-change (15), high-variance (10) and
price-vs-extrema (10 each) penalties, clamp at 0. -/
def consistencyScore (c : Candidate) : ℚ :=
  max 0 (100 - supplyPenalty c - extremeChangePenalty c - variancePenalty c -
    extremaPenalty c)

/-- Model of `_calculate_accuracy_score`: 100 plus a multi-source bonus (10)
or a no-source penalty (20), plus a reliable-source bonus (5), minus an
error-count penalty, clamped to `[0, 100]`. -/
def accuracyScore (c : Candidate) : ℚ :=
  let s1 : ℚ :=
    if Nat.ble 2 c.data_sources.length then 110
    else if c.data_sources.length = 0 then 80
    else 100
  let s2 := if c.data_sources.any (fun s => s == .binance || s == .coingecko) then s1 + 5 else s1
  let s3 := if Nat.blt 3 c.error_count then s2 - c.error_count * 5 else s2
  max 0 (min 100 s3)

/-- Threshold mapping of `DataQualityService._get_quality_level`. -/
def qualityLevel (score : ℚ) : DataQuality :=
  if 80 ≤ score then .high
  else if 60 ≤ score then .medium
  else if 30 ≤ score then .low
  else .invalid

/-- The weighted quality score of `validate_and_score_data` (weights
0.30 / 0.25 / 0.25 / 0.20). -/
def weightedQuality (now : ℚ) (c : Candidate) : ℚ :=
  completenessScore c * (30/100) + freshnessScore now c * (25/100) +
  consistencyScore c * (25/100) + accuracyScore c * (20/100)

/-- Model of `DataQualityService.validate_and_score_data`:
`(is_valid, quality_score, quality_level)`.  On rejection the source returns
`(False, 0.0, details)` with no level; `qualityLevel 0 = invalid` stands in
for the absent level. -/
def validateAndScoreData (now : ℚ) (c : Candidate) : Bool × ℚ × DataQuality :=
  if validateBasicRules c then
    let q := weightedQuality now c
    (true, q, qualityLevel q)
  else (false, 0, .invalid)

/-! ## Database cache service (`database_cache_service.py`) -/

/-- Stored row of the `crypto_data` collection (`db_models.CryptoDataDB`)
restricted to the fields the verified operations read or write. -/
structure StoredRec where
  symbol : String
  name : Option String
  price_usd : Option ℚ
  market_cap_usd : Option ℚ
  volume_24h_usd : Option ℚ
  circulating_supply : Option ℚ
  percent_change_1h : Option ℚ
  percent_change_24h : Option ℚ
  percent_change_7d : Option ℚ
  percent_change_30d : Option ℚ
  max_price_1y : Option ℚ
  min_price_1y : Option ℚ
  data_quality : DataQuality
  quality_score : ℚ
  data_sources : List DataSrc
  source_timestamps : List (String × ℚ)
  last_updated : ℚ
  error_count : ℕ
deriving DecidableEq, Repr

/-- The `records` store: the `crypto_data` collection, keyed by symbol. -/
abbrev Store := List StoredRec

/-- Lookup by symbol (`find_one({"symbol": ...})`). -/
def findRec (st : Store) (sym : String) : Option StoredRec :=
  match st with
  | [] => none
  | r :: rest => if r.symbol = sym then some r else findRec rest sym

/-- Per-field max-age minutes of `DatabaseCacheService.cache_config`; fields
absent from the config are skipped by the freshness check. -/
def cacheConfig : String → Option ℚ
  | "price_usd" => some 5
  | "percent_change_24h" => some 15
  | "market_cap_usd" => some 30
  | "volume_24h_usd" => some 30
  | "historical_prices" => some 120
  | "max_price_1y" => some 1440
  | _ => none

/-- Freshness of one required field at clock `now`: its own source timestamp
when recorded, else the row's `last_updated`; fresh iff the age in minutes
does not exceed the configured max age. -/
def fieldFresh (r : StoredRec) (now : ℚ) (f : String) : Bool :=
  match cacheConfig f with
  | none => true
  | some maxAge =>
      let ts := (lookupQ r.source_timestamps f).getD r.last_updated
      decide ((now - ts) / 60 ≤ maxAge)

/-- Model of `DatabaseCacheService._check_data_freshness`. -/
def checkDataFreshness (r : StoredRec) (fields : List String) (now : ℚ) : Bool :=
  fields.all (fieldFresh r now)

/-- Model of `DatabaseCacheService.get_crypto_data`: the row is returned only
when it exists, every required field is fresh (skipped when the required-field
list is empty), and its quality level is not `invalid`. -/
def getCryptoData (st : Store) (sym : String) (fields : List String) (now : ℚ) :
    Option StoredRec :=
  match findRec st (strUpper sym) with
  | none => none
  | some r =>
      if fields.isEmpty then
        if r.data_quality = .invalid then none else some r
      else if checkDataFreshness r fields now then
        if r.data_quality = .invalid then none else some r
      else none

/-- Stable-field merge rule of `DatabaseCacheService._merge_crypto_data`:
fill only when the existing value is absent. -/
def fillIfAbsent {α : Type} (ex new : Option α) : Option α :=
  match ex with
  | some e => some e
  | none => new

/-- Timestamp-map update (`dict.update`): entries of `new` override entries of
`old`; list order is irrelevant to every reader (lookup and maximum). -/
def updateTs (old new : List (String × ℚ)) : List (String × ℚ) :=
  new ++ old.filter (fun p => (lookupQ new p.1).isNone)

/-- Source-set union of the DB merge (`set` union; list order is irrelevant to
every reader). -/
def unionSources (ex : List DataSrc) (new : List DataSrc) (newTag : Option DataSrc) :
    List DataSrc :=
  (ex ++ new ++ (match newTag with | some s => [s] | none => [])).dedup

/-- Merged candidate produced by `DatabaseCacheService._merge_crypto_data`
before its re-scoring step: volatile fields (`price_usd`, `volume_24h_usd`,
every `percent_change_*`) always take a present new value, stable fields fill
only when absent; `last_updated` and `error_count` keep the existing row's
values (both are always present on the existing row, so the fill rule keeps
them). -/
def mergedCandidate (ex : StoredRec) (c : Candidate) : Candidate :=
  { symbol := some ex.symbol
    name := fillIfAbsent ex.name c.name
    price_usd := c.price_usd.orElse (fun _ => ex.price_usd)
    market_cap_usd := fillIfAbsent ex.market_cap_usd c.market_cap_usd
    volume_24h_usd := c.volume_24h_usd.orElse (fun _ => ex.volume_24h_usd)
    circulating_supply := fillIfAbsent ex.circulating_supply c.circulating_supply
    percent_change_1h := c.percent_change_1h.orElse (fun _ => ex.percent_change_1h)
    percent_change_24h := c.percent_change_24h.orElse (fun _ => ex.percent_change_24h)
    percent_change_7d := c.percent_change_7d.orElse (fun _ => ex.percent_change_7d)
    percent_change_30d := c.percent_change_30d.orElse (fun _ => ex.percent_change_30d)
    max_price_1y := fillIfAbsent ex.max_price_1y c.max_price_1y
    min_price_1y := fillIfAbsent ex.min_price_1y c.min_price_1y
    data_sources := unionSources ex.data_sources c.data_sources c.source
    source := c.source
    error_count := ex.error_count
    last_updated := some ex.last_updated
    source_timestamps := updateTs ex.source_timestamps c.source_timestamps }

/-- New stored row built from a validated candidate when no row exists for the
symbol (`merged_data = crypto_data` plus `symbol`/`last_updated` overrides). -/
def recFromCandidate (sym : String) (now : ℚ) (c : Candidate) (qs : ℚ)
    (qd : DataQuality) : StoredRec :=
  { symbol := sym
    name := c.name
    price_usd := c.price_usd
    market_cap_usd := c.market_cap_usd
    volume_24h_usd := c.volume_24h_usd
    circulating_supply := c.circulating_supply
    percent_change_1h := c.percent_change_1h
    percent_change_24h := c.percent_change_24h
    percent_change_7d := c.percent_change_7d
    percent_change_30d := c.percent_change_30d
    max_price_1y := c.max_price_1y
    min_price_1y := c.min_price_1y
    data_quality := qd
    quality_score := qs
    data_sources := c.data_sources
    source_timestamps := c.source_timestamps
    last_updated := now
    error_count := c.error_count }

/-- Model of the DB `_merge_crypto_data` followed by the caller's
`symbol`/`last_updated` overrides: merge fields, re-run
`validate_and_score_data` on the merged dict (whose `last_updated` is still
the existing row's), refresh the quality fields only when the merged dict
passes validation, then stamp `last_updated` with the write time. -/
def dbMergeRec (now : ℚ) (ex : StoredRec) (c : Candidate) : StoredRec :=
  let m := mergedCandidate ex c
  let v := validateAndScoreData now m
  { symbol := ex.symbol
    name := m.name
    price_usd := m.price_usd
    market_cap_usd := m.market_cap_usd
    volume_24h_usd := m.volume_24h_usd
    circulating_supply := m.circulating_supply
    percent_change_1h := m.percent_change_1h
    percent_change_24h := m.percent_change_24h
    percent_change_7d := m.percent_change_7d
    percent_change_30d := m.percent_change_30d
    max_price_1y := m.max_price_1y
    min_price_1y := m.min_price_1y
    data_quality := if v.1 then v.2.2 else ex.data_quality
    quality_score := if v.1 then v.2.1 else ex.quality_score
    data_sources := m.data_sources
    source_timestamps := m.source_timestamps
    last_updated := now
    error_count := ex.error_count }

/-- Replace-by-symbol upsert (`replace_one({"symbol": sym}, ..., upsert)`). -/
def writeRec (st : Store) (r : StoredRec) : Store :=
  (st.filter (fun x => x.symbol != r.symbol)) ++ [r]

/-- Model of `DatabaseCacheService.store_crypto_data` on the `validate=True`
path (the only one the repository ever calls): reject and leave the store
untouched when the symbol is missing/empty or hard validation fails,
otherwise merge with any existing non-invalid row and replace by symbol. -/
def storeCryptoData (now : ℚ) (st : Store) (c : Candidate) : Bool × Store :=
  match c.symbol with
  | none => (false, st)
  | some s =>
      let sym := strUpper s
      if sym.length = 0 then (false, st)
      else
        let v := validateAndScoreData now c
        if v.1 then
          match getCryptoData st sym [] now with
          | none => (true, writeRec st (recFromCandidate sym now c v.2.1 v.2.2))
          | some ex => (true, writeRec st { dbMergeRec now ex c with symbol := sym })
        else (false, st)

/-- Stores reachable from the empty collection by the only write the
repository performs on `crypto_data` (`store_crypto_data`). -/
inductive ReachableStore : Store → Prop where
  | empty : ReachableStore []
  | store (st : Store) (now : ℚ) (c : Candidate) :
      ReachableStore st → ReachableStore (storeCryptoData now st c).2

/-! ## Aggregator merge (`data_aggregation_service.py`) -/

/-- Raw provider record flowing through `_fetch_fresh_data_parallel`
(provider dict plus the `primary_source` / `source_priority` keys the
aggregator attaches). -/
structure AggRec where
  symbol : String
  name : Option String
  price : Option ℚ
  market_cap : Option ℚ
  volume_24h : Option ℚ
  percent_change_1h : Option ℚ
  percent_change_24h : Option ℚ
  source : Option String
  data_sources : List String
  primary_source : Option String
  source_priority : Option ℕ
deriving DecidableEq, Repr

/-- Generic-field rule of the aggregator `_merge_crypto_data`: a new value
that is present and non-zero fills a slot that is missing or zero, otherwise
the existing value is kept. -/
def fillNum (ex new : Option ℚ) : Option ℚ :=
  match new with
  | none => ex
  | some v =>
      if v = 0 then ex
      else
        match ex with
        | none => some v
        | some e => if e = 0 then some v else some e

/-- String-field rule of the aggregator merge (`value != 0` always holds for
a string, `merged[key] == 0` never does): fill only when absent. -/
def fillStr (ex new : Option String) : Option String :=
  match new with
  | none => ex
  | some v => match ex with
      | none => some v
      | some e => some e

/-- Priority-field rule (numeric, not in the volatile list): fill when the
existing slot is missing or zero. -/
def fillPrio (ex new : Option ℕ) : Option ℕ :=
  match new with
  | none => ex
  | some v =>
      if v = 0 then ex
      else
        match ex with
        | none => some v
        | some e => if e = 0 then some v else some e

/-- Volatile-numeric rule (`price`, `market_cap`, `volume_24h`) of the
aggregator merge: with both values present, non-zero and the existing one
positive, values within 20% of the existing are averaged, a larger deviation
is taken only from a binance/coingecko-tagged record; a non-positive existing
value is replaced. -/
def mergeVolatile (newSource : Option String) (ex new : Option ℚ) : Option ℚ :=
  match new with
  | none => ex
  | some v =>
      if v = 0 then ex
      else
        match ex with
        | none => some v
        | some e =>
            if e = 0 then some v
            else if 0 < e then
              if |v - e| < e * (2/10) then some ((e + v) / 2)
              else if newSource = some "binance" ∨ newSource = some "coingecko" then some v
              else some e
            else some v

/-- Source-set union of the aggregator merge: both records' source lists plus
both records' `source` tags, de-duplicated (Python builds a `set`; list order
is irrelevant to every reader). -/
def aggUnionSources (ex new : AggRec) : List String :=
  (ex.data_sources ++ new.data_sources ++
    (match ex.source with | some s => [s] | none => []) ++
    (match new.source with | some s => [s] | none => [])).dedup

/-- Model of `DataAggregationService._merge_crypto_data` (the aggregator
version, lines 1324-1350). -/
def aggMerge (ex new : AggRec) : AggRec :=
  { symbol := ex.symbol
    name := fillStr ex.name new.name
    price := mergeVolatile new.source ex.price new.price
    market_cap := mergeVolatile new.source ex.market_cap new.market_cap
    volume_24h := mergeVolatile new.source ex.volume_24h new.volume_24h
    percent_change_1h := fillNum ex.percent_change_1h new.percent_change_1h
    percent_change_24h := fillNum ex.percent_change_24h new.percent_change_24h
    source := fillStr ex.source new.source
    data_sources := aggUnionSources ex new
    primary_source := fillStr ex.primary_source new.primary_source
    source_priority := fillPrio ex.source_priority new.source_priority }

/-- Fixed source priorities of `_fetch_fresh_data_parallel` (lower wins). -/
def sourcePriority (s : String) : ℕ :=
  if s = "coinmarketcap" then 1
  else if s = "cryptocompare" then 2
  else if s = "coinapi" then 3
  else if s = "coinpaprika" then 4
  else if s = "bitfinex" then 5
  else if s = "binance" then 6
  else if s = "yahoo" then 7
  else if s = "fallback" then 8
  else 999

/-- Per-symbol combination step of `_fetch_fresh_data_parallel` (lines
240-262): the first record for a symbol becomes primary; a later record from
a strictly higher-priority source becomes the new primary after merging;
otherwise the existing primary is kept and the new record is merged in. -/
def combineRecord (acc : Option AggRec) (sourceName : String) (r : AggRec) : AggRec :=
  let prio := sourcePriority sourceName
  match acc with
  | none => { r with primary_source := some sourceName, source_priority := some prio }
  | some e =>
      if prio < e.source_priority.getD 999 then
        { aggMerge e r with primary_source := some sourceName, source_priority := some prio }
      else aggMerge e r

/-! ## Refresh coordinator (`start_background_refresh`) -/

/-- Job status field `DataAggregationService.refresh_status`. -/
inductive RefreshStatus where
  | idle
  | running
  | completed
  | failed
deriving DecidableEq, Repr

/-- Coordinator state: the status flag, the id set of
`background_refresh_tasks`, and a counter standing in for the freshness of
`uuid4` task ids. -/
structure RefreshState where
  status : RefreshStatus
  jobs : List ℕ
  nextId : ℕ
deriving DecidableEq, Repr

/-- Model of `start_background_refresh`: return no id and change nothing when
a job is already running, otherwise flip the status to running, register the
fresh task id and return it.  The check and the updates run with no
suspension point between them, so the step is atomic on the event loop. -/
def startBackgroundRefresh (s : RefreshState) : Option ℕ × RefreshState :=
  if s.status = .running then (none, s)
  else (some s.nextId,
    { status := .running, jobs := s.jobs ++ [s.nextId], nextId := s.nextId + 1 })

/-- Model of the tail of `_background_refresh_worker`: set the final status
and unregister the task (the two mutations run with no suspension point
between them). -/
def finishRefresh (s : RefreshState) (tid : ℕ) (ok : Bool) : RefreshState :=
  { s with status := if ok then .completed else .failed, jobs := s.jobs.erase tid }

/-- States reachable from the constructor state (`refresh_status = "idle"`,
no background tasks). -/
inductive RefreshReachable : RefreshState → Prop where
  | init : RefreshReachable ⟨.idle, [], 0⟩
  | start (s : RefreshState) :
      RefreshReachable s → RefreshReachable (startBackgroundRefresh s).2
  | finish (s : RefreshState) (tid : ℕ) (ok : Bool) :
      RefreshReachable s → tid ∈ s.jobs → RefreshReachable (finishRefresh s tid ok)

/-! ## Snapshot precompute flag (`_precompute_period_ranking`) -/

/-- State of one period's recomputation: the `is_computing[period]` flag and
the number of in-flight executions of the method body for that period. -/
structure PrecomputeState where
  computing : Bool
  active : ℕ
deriving DecidableEq, Repr

/-- Model of entering `_precompute_period_ranking` for the period.  The
already-computing early return sits inside the `try`, so its `finally`
clause also resets the flag; otherwise the flag is set and a computation
starts (the body then suspends at its awaits). -/
def precomputeInvoke (s : PrecomputeState) : PrecomputeState :=
  if s.computing then { s with computing := false }
  else { computing := true, active := s.active + 1 }

/-- Model of a computation reaching its `finally`: the flag is reset and the
computation ends. -/
def precomputeFinish (s : PrecomputeState) : PrecomputeState :=
  { computing := false, active := s.active - 1 }

/-- Interleavings of invocations and completions for one period, from the
constructor state (flag unset, nothing running). -/
inductive PrecomputeReachable : PrecomputeState → Prop where
  | init : PrecomputeReachable ⟨false, 0⟩
  | invoke (s : PrecomputeState) :
      PrecomputeReachable s → PrecomputeReachable (precomputeInvoke s)
  | finish (s : PrecomputeState) :
      PrecomputeReachable s → 0 < s.active → PrecomputeReachable (precomputeFinish s)

/-! ## Optimized ranking read path (`get_optimized_crypto_ranking`) -/

/-- Python exception kinds relevant to the read path. -/
inductive PyErr where
  | attributeError
deriving DecidableEq, Repr

/-- Model of the call `self._compute_ranking_on_demand(...)`.  The class
defines no attribute of that name: the intended method body exists only as
unreachable dead code after the `return` statements inside
`_compute_ranking_on_demand_fast` (its `def` line is missing), so every call
raises `AttributeError`. -/
def computeRankingOnDemand : Except PyErr (List Crypto) :=
  .error .attributeError

/-- Batches of 50 used by `RankingPrecomputeService._optimized_scoring`. -/
def toBatches (l : List Crypto) : List (List Crypto) :=
  if h : l = [] then [] else l.take 50 :: toBatches (l.drop 50)
termination_by l.length
decreasing_by
  have h3 : 0 < l.length := List.length_pos.mpr h
  simp only [List.length_drop]
  omega

/-- Model of `_optimized_scoring`: score in batches of 50, then one global
stable descending sort and rank assignment. -/
def optimizedScoring (l : List Crypto) (p : Period) : List Crypto :=
  assignRanksFrom 1 (sortDesc ((toBatches l).map (fun b => calculateScores b p)).flatten)

/-- Model of `_compute_ranking_on_demand_fast`: when the usable record pool
is below `max(50, offset+limit)` the method falls back to
`self._compute_ranking_on_demand` (both in the thin-pool branch and in its
exception handler), which raises `AttributeError`; otherwise it scores the
pool and paginates. -/
def computeRankingOnDemandFast (dbRecords : List Crypto) (p : Period)
    (limit offset : ℕ) : Except PyErr (List Crypto) :=
  if dbRecords.length < max 50 (offset + limit) then computeRankingOnDemand
  else .ok (((optimizedScoring dbRecords p).drop offset).take limit)

/-- Period-freshness thresholds in seconds
(`period_freshness_thresholds`). -/
def periodFreshThreshold : Period → ℚ
  | .p24h => 180
  | .p7d => 1200
  | .p30d => 5400
  | .p1h => 8
  | _ => 180

/-- Model of `_is_data_fresh_for_period`. -/
def isDataFreshForPeriod (lastUpdate : Option ℚ) (p : Period) (now : ℚ) : Bool :=
  match lastUpdate with
  | none => false
  | some lu => decide (now - lu ≤ periodFreshThreshold p)

/-- Inputs of one `get_optimized_crypto_ranking` call: the request, the clock,
`self.last_update`, the memory-cache entry for the request key, the snapshot
the precompute service would serve, and the usable rows
`_get_cached_crypto_data_limited` would return. -/
structure RankEnv where
  period : Period
  limit : ℕ
  offset : ℕ
  force : Bool
  now : ℚ
  lastUpdate : Option ℚ
  memoryCached : Option (List Crypto)
  precomputed : Option (List Crypto)
  dbRecords : List Crypto

/-- Model of `get_optimized_crypto_ranking`: memory cache first (a non-empty
cached list returns immediately), then the fresh-period snapshot path, then
the recently-updated fast on-demand path or the plain on-demand call; the
outer exception handler converts any raised error into an empty list. -/
def getOptimizedCryptoRanking (env : RankEnv) : List Crypto :=
  let memHit : Option (List Crypto) :=
    if env.force then none
    else match env.memoryCached with
      | some l => if l.isEmpty then none else some l
      | none => none
  match memHit with
  | some l => l
  | none =>
      let snapHit : Option (List Crypto) :=
        if !env.force && isDataFreshForPeriod env.lastUpdate env.period env.now then
          match env.precomputed with
          | some l => if l.isEmpty then none else some l
          | none => none
        else none
      match snapHit with
      | some l => l
      | none =>
          let recently :=
            !env.force &&
            (match env.lastUpdate with
              | some lu => decide (env.now - lu < 120)
              | none => false)
          let r :=
            if recently then
              computeRankingOnDemandFast env.dbRecords env.period env.limit env.offset
            else computeRankingOnDemand
          match r with
          | .ok l => l
          | .error _ => []

/-! ## Enrichment rate limiter (`data_enrichment_service.py`) -/

/-- Fixed per-source minimum intervals in seconds
(`DataEnrichmentService.rate_limits`, set in `__init__` and never written
again anywhere in the repository). -/
def rateLimits : DataSrc → Option ℚ
  | .binance => some (1/10)
  | .coingecko => some 1
  | .yahooFinance => some (1/2)
  | .coinlore => some (3/2)
  | .manual => none

/-- Association-list lookup for the `last_api_calls` dict. -/
def lookupSrc (l : List (DataSrc × ℚ)) (k : DataSrc) : Option ℚ :=
  match l with
  | [] => none
  | (k0, v) :: rest => if k0 = k then some v else lookupSrc rest k

/-- Limiter state: `last_api_calls`. -/
structure RateLimiterState where
  lastApiCalls : List (DataSrc × ℚ)
deriving DecidableEq, Repr

/-- Model of `DataEnrichmentService._respect_rate_limit` called at clock
`now`: returns the time at which the guarded call proceeds and the updated
state.  A source without a configured interval proceeds immediately and is
not recorded; otherwise the call sleeps until one minimum interval after the
recorded last call and the post-sleep time is recorded. -/
def respectRateLimit (st : RateLimiterState) (src : DataSrc) (now : ℚ) :
    ℚ × RateLimiterState :=
  match rateLimits src with
  | none => (now, st)
  | some minInterval =>
      let callTime :=
        match lookupSrc st.lastApiCalls src with
        | none => now
        | some last => if now - last < minInterval then last + minInterval else now
      (callTime, ⟨(src, callTime) :: st.lastApiCalls.filter (fun p => p.1 != src)⟩)

/-- Effect on the limiter state of the exception handler in
`_enrich_specific_field`, which is what fires on an explicit rate-limit error
from a provider: it records failure metrics in the database and leaves the
limiter state untouched. -/
def rateLimitFailureEffect (st : RateLimiterState) : RateLimiterState := st

/-- Invariant of the refresh coordinator: at most one registered background
job, none unless the status is running, and all registered ids below the
fresh-id counter. -/
def RefreshInv (s : RefreshState) : Prop :=
  s.jobs.length ≤ 1 ∧ (s.status ≠ .running → s.jobs = []) ∧ ∀ t ∈ s.jobs, t < s.nextId

/-- Quality invariant of the record store: every row carries a score in
[0, 100] and a level equal to the threshold function of its score. -/
def QualityInv (st : Store) : Prop :=
  ∀ r ∈ st, 0 ≤ r.quality_score ∧ r.quality_score ≤ 100 ∧
    r.data_quality = qualityLevel r.quality_score

/-! ## Concrete sample inputs -/

/-- Crypto record at its yearly high (scenario price=100, yearlyHigh=100). -/
def sampleAtHigh : Crypto :=
  { symbol := "AAA", name := "AAA", price_usd := 100, market_cap_usd := none,
    volume_24h_usd := none, percent_change_1h := none, percent_change_24h := none,
    percent_change_7d := none, percent_change_30d := none, rank := none,
    historical_prices := [], max_price_1y := some 100, min_price_1y := none,
    performance_score := none, drawdown_score := none,
    rebound_potential_score := none, momentum_score := none, total_score := none }

/-- Crypto record at an 80% drawdown (price=20, yearlyHigh=100). -/
def sampleDeepDrawdown : Crypto := { sampleAtHigh with symbol := "BBB", price_usd := 20 }

/-- First BTC record of the merge-determinism scenario (priority-1 source). -/
def sampleBtc1 : AggRec :=
  { symbol := "BTC", name := none, price := some 50000, market_cap := none,
    volume_24h := none, percent_change_1h := none, percent_change_24h := none,
    source := none, data_sources := [], primary_source := none, source_priority := none }

/-- Second BTC record of the scenario (priority-2 source, price 50050). -/
def sampleBtc2 : AggRec := { sampleBtc1 with price := some 50050 }

/-- The first BTC record after the aggregator marked it primary. -/
def sampleBtcPrimary : AggRec :=
  { sampleBtc1 with primary_source := some "coinmarketcap", source_priority := some 1 }

/-- Stored row whose price field carries a source timestamp of 0. -/
def sampleFreshRow : StoredRec :=
  { symbol := "BTC", name := none, price_usd := some 1, market_cap_usd := none,
    volume_24h_usd := none, circulating_supply := none, percent_change_1h := none,
    percent_change_24h := none, percent_change_7d := none, percent_change_30d := none,
    max_price_1y := none, min_price_1y := none, data_quality := .low,
    quality_score := 40, data_sources := [], source_timestamps := [("price_usd", 0)],
    last_updated := 0, error_count := 0 }

/-- Well-formed candidate accepted by hard validation. -/
def sampleGoodCandidate : Candidate :=
  { symbol := some "BTC", name := some "Bitcoin", price_usd := some 50000,
    market_cap_usd := some 1000000000, volume_24h_usd := some 100000,
    circulating_supply := none, percent_change_1h := none, percent_change_24h := some 2,
    percent_change_7d := none, percent_change_30d := none, max_price_1y := none,
    min_price_1y := none, data_sources := [.binance], source := some .binance,
    error_count := 0, last_updated := some 0, source_timestamps := [] }

/-- Candidate rejected by hard validation (price above the 1e6 bound). -/
def sampleBadCandidate : Candidate := { sampleGoodCandidate with price_usd := some 2000000 }

/-- Read-path inputs with a missing snapshot, an empty memory cache, a thin
one-row record pool, and a recent last update (clock 60, last update 0). -/
def sampleThinEnv : RankEnv :=
  { period := .p24h, limit := 50, offset := 0, force := false, now := 60,
    lastUpdate := some 0, memoryCached := none, precomputed := none,
    dbRecords := [sampleAtHigh] }

/-- The same inputs at clock 600, where the last update is no longer recent. -/
def sampleThinEnvStale : RankEnv := { sampleThinEnv with now := 600 }

/-- The store after writing `sampleGoodCandidate` into the empty store at
clock 60. -/
def sampleStore : Store := (storeCryptoData 60 [] sampleGoodCandidate).2

/-- The row that write produces (quality score 92, level high). -/
def sampleStoredRow : StoredRec :=
  recFromCandidate (strUpper "BTC") 60 sampleGoodCandidate 92 .high

/-! ## Helper lemmas -/

theorem reboundBase_lb (d : ℚ) : 30 ≤ reboundBase d := by
  unfold reboundBase
  split_ifs <;> norm_num

theorem reboundBase_ub (d : ℚ) : reboundBase d ≤ 100 := by
  unfold reboundBase
  split_ifs <;> norm_num

theorem reboundBase_mono {d1 d2 : ℚ} (h : d1 ≤ d2) : reboundBase d1 ≤ reboundBase d2 := by
  unfold reboundBase
  split_ifs <;> linarith

theorem capMultiplier_lb (mc : Option ℚ) : 8/10 ≤ capMultiplier mc := by
  unfold capMultiplier
  dsimp only
  split_ifs <;> norm_num

theorem capMultiplier_ub (mc : Option ℚ) : capMultiplier mc ≤ 12/10 := by
  unfold capMultiplier
  dsimp only
  split_ifs <;> norm_num

theorem fastRebound_of_pos {c : Crypto} {m : ℚ} (hm : c.max_price_1y = some m)
    (hm0 : 0 < m) (hp : 0 < c.price_usd) :
    fastReboundPotentialScore c =
      min 100 (reboundBase ((m - c.price_usd) / m * 100) * capMultiplier c.market_cap_usd) := by
  have hguard : ¬ (m ≤ 0 ∨ c.price_usd = 0) := by
    push_neg
    exact ⟨hm0, ne_of_gt hp⟩
  have h1 : fastReboundPotentialScore c =
      if m ≤ 0 ∨ c.price_usd = 0 then 50
      else min 100 (reboundBase ((m - c.price_usd) / m * 100) * capMultiplier c.market_cap_usd) := by
    unfold fastReboundPotentialScore
    rw [hm]
  rw [h1, if_neg hguard]

/-! ## Claim theorems -/

/-- C10: for a record with a positive price and positive recorded yearly
high, the rebound-potential score is capped at 100, weakly increasing in the
distance from the yearly high (lower price, same market cap ⇒ score at least
as large), equals the minimum band 30 times the bounded market-cap multiplier
at zero drawdown, reaches the maximum band 100 times the multiplier from an
80% drawdown on, and the market-cap multiplier lies in [0.8, 1.2]. -/
theorem C10_rebound_potential_shape (c : Crypto) (m : ℚ)
    (hm : c.max_price_1y = some m) (hm0 : 0 < m) (hp : 0 < c.price_usd) :
    fastReboundPotentialScore c ≤ 100 ∧
    (8/10 ≤ capMultiplier c.market_cap_usd ∧ capMultiplier c.market_cap_usd ≤ 12/10) ∧
    (∀ c2 : Crypto, c2.max_price_1y = some m → c2.market_cap_usd = c.market_cap_usd →
      0 < c2.price_usd → c2.price_usd ≤ c.price_usd →
      fastReboundPotentialScore c ≤ fastReboundPotentialScore c2) ∧
    (∀ d : ℚ, 30 ≤ reboundBase d ∧ reboundBase d ≤ 100) ∧
    (c.price_usd = m →
      fastReboundPotentialScore c = min 100 (30 * capMultiplier c.market_cap_usd)) ∧
    (c.price_usd ≤ m * (3/10) →
      fastReboundPotentialScore c = min 100 (100 * capMultiplier c.market_cap_usd)) := by
  have hcap0 : (0:ℚ) ≤ capMultiplier c.market_cap_usd :=
    le_trans (by norm_num) (capMultiplier_lb c.market_cap_usd)
  refine ⟨?_, ⟨capMultiplier_lb _, capMultiplier_ub _⟩, ?_, ?_, ?_, ?_⟩
  · rw [fastRebound_of_pos hm hm0 hp]
    exact min_le_left _ _
  · intro c2 hm2 hmc2 hp2 hple
    rw [fastRebound_of_pos hm hm0 hp, fastRebound_of_pos hm2 hm0 hp2, hmc2]
    refine min_le_min (le_refl 100) (mul_le_mul_of_nonneg_right ?_ hcap0)
    refine reboundBase_mono ?_
    have hdiv : (m - c.price_usd) / m ≤ (m - c2.price_usd) / m :=
      (div_le_div_iff_of_pos_right hm0).mpr (by linarith)
    calc (m - c.price_usd) / m * 100 ≤ (m - c2.price_usd) / m * 100 := by linarith
      _ = (m - c2.price_usd) / m * 100 := rfl
  · exact fun d => ⟨reboundBase_lb d, reboundBase_ub d⟩
  · intro hpm
    rw [fastRebound_of_pos hm hm0 hp]
    have hz : (m - c.price_usd) / m * 100 = 0 := by
      rw [hpm, sub_self, zero_div, zero_mul]
    rw [hz]
    have h30 : reboundBase 0 = 30 := by norm_num [reboundBase]
    rw [h30]
  · intro hle
    rw [fastRebound_of_pos hm hm0 hp]
    have h70 : 70 ≤ (m - c.price_usd) / m * 100 := by
      rw [div_mul_eq_mul_div, le_div_iff₀ hm0]
      linarith
    have h100 : reboundBase ((m - c.price_usd) / m * 100) = 100 := by
      unfold reboundBase
      rw [if_pos h70]
    rw [h100]

/-- Witness for C10 at the two scenario records: zero drawdown gives the
minimum band times the small-cap multiplier (36), the 80% drawdown the
capped maximum (100). -/
theorem C10_witness :
    sampleAtHigh.max_price_1y = some 100 ∧ (0:ℚ) < 100 ∧ 0 < sampleAtHigh.price_usd ∧
    fastReboundPotentialScore sampleAtHigh ≤ 100 ∧
    fastReboundPotentialScore sampleAtHigh = min 100 (30 * capMultiplier sampleAtHigh.market_cap_usd) ∧
    fastReboundPotentialScore sampleAtHigh = 36 ∧
    fastReboundPotentialScore sampleDeepDrawdown = 100 := by
  have h := C10_rebound_potential_shape sampleAtHigh 100 rfl (by norm_num)
    (by norm_num [sampleAtHigh])
  have e1 : fastReboundPotentialScore sampleAtHigh = 36 := by
    rw [fastRebound_of_pos (c := sampleAtHigh) rfl (by norm_num) (by norm_num [sampleAtHigh])]
    norm_num [sampleAtHigh, reboundBase, capMultiplier]
  have e2 : fastReboundPotentialScore sampleDeepDrawdown = 100 := by
    rw [fastRebound_of_pos (c := sampleDeepDrawdown) rfl (by norm_num)
      (by norm_num [sampleDeepDrawdown, sampleAtHigh])]
    norm_num [sampleDeepDrawdown, sampleAtHigh, reboundBase, capMultiplier]
  exact ⟨rfl, by norm_num, by norm_num [sampleAtHigh], h.1, h.2.2.2.2.1 rfl, e1, e2⟩

/-- C6: a stored Record is returned only when every required field with a
configured max-age is within it; a row whose required field is stale is
reported absent even though it exists; and the 5-minute price max-age treats
an age of 4m59s as fresh and 5m01s as stale. -/
theorem C6_freshness_gate :
    (∀ (st : Store) (sym : String) (fields : List String) (now : ℚ) (r : StoredRec),
      getCryptoData st sym fields now = some r →
      ∀ f ∈ fields, ∀ ma, cacheConfig f = some ma →
        (now - ((lookupQ r.source_timestamps f).getD r.last_updated)) / 60 ≤ ma) ∧
    (∀ (st : Store) (sym : String) (fields : List String) (now : ℚ) (r0 : StoredRec),
      findRec st (strUpper sym) = some r0 →
      (∃ f ∈ fields, fieldFresh r0 now f = false) →
      getCryptoData st sym fields now = none) ∧
    fieldFresh sampleFreshRow 299 "price_usd" = true ∧
    fieldFresh sampleFreshRow 301 "price_usd" = false ∧
    getCryptoData [sampleFreshRow] "BTC" ["price_usd"] 299 = some sampleFreshRow ∧
    getCryptoData [sampleFreshRow] "BTC" ["price_usd"] 301 = none := by
  refine ⟨?_, ?_, ?_, ?_, ?_, ?_⟩
  · intro st sym fields now r h f hf ma hma
    unfold getCryptoData at h
    cases hfind : findRec st (strUpper sym) with
    | none => rw [hfind] at h; cases h
    | some r1 =>
      rw [hfind] at h
      dsimp only at h
      by_cases hemp : fields.isEmpty
      · rw [List.isEmpty_iff] at hemp
        subst hemp
        cases hf
      · rw [if_neg (by simpa using hemp)] at h
        by_cases hfr : checkDataFreshness r1 fields now = true
        · rw [if_pos hfr] at h
          have hr : r1 = r := by
            by_cases hq : r1.data_quality = DataQuality.invalid
            · rw [if_pos hq] at h; cases h
            · rw [if_neg hq] at h; exact Option.some_injective _ h
          subst hr
          have hall := List.all_eq_true.mp hfr f hf
          unfold fieldFresh at hall
          rw [hma] at hall
          exact of_decide_eq_true hall
        · rw [if_neg hfr] at h; cases h
  · intro st sym fields now r0 hfind hex
    obtain ⟨f, hf, hstale⟩ := hex
    unfold getCryptoData
    rw [hfind]
    dsimp only
    have hne : ¬ fields.isEmpty := by
      intro hemp
      rw [List.isEmpty_iff] at hemp
      subst hemp
      cases hf
    rw [if_neg (by simpa using hne)]
    have hck : ¬ checkDataFreshness r0 fields now = true := by
      intro hall
      have := List.all_eq_true.mp hall f hf
      rw [hstale] at this
      cases this
    rw [if_neg hck]
  · norm_num [fieldFresh, cacheConfig, lookupQ, sampleFreshRow]
  · norm_num [fieldFresh, cacheConfig, lookupQ, sampleFreshRow]
  · have hu : strUpper "BTC" = "BTC" := rfl
    simp only [getCryptoData, hu, findRec, sampleFreshRow]
    norm_num [checkDataFreshness, fieldFresh, cacheConfig, lookupQ]
    exact fun hq => nomatch hq
  · have hu : strUpper "BTC" = "BTC" := rfl
    simp only [getCryptoData, hu, findRec, sampleFreshRow]
    norm_num [checkDataFreshness, fieldFresh, cacheConfig, lookupQ]

/-- Witness for C6: the concrete fresh read at 299 seconds satisfies the
age bound of the price field. -/
theorem C6_witness : ((299 : ℚ) - 0) / 60 ≤ 5 :=
  C6_freshness_gate.1 [sampleFreshRow] "BTC" ["price_usd"] 299 sampleFreshRow
    (C6_freshness_gate.2.2.2.2.1) "price_usd" (by simp) 5 rfl

/-- C9 counterexample: after an explicit rate-limit failure of the first
binance call at t=0, the limiter admits the next call at t=0.15s — the
configured minimum interval is still the constant 0.1s, not the doubled 0.2s
the claim requires (and nothing in the repository ever writes to
`rate_limits`). -/
theorem C9_counterexample :
    rateLimits .binance = some (1/10) ∧
    (respectRateLimit (rateLimitFailureEffect
        (respectRateLimit ⟨[]⟩ .binance 0).2) .binance (3/20)).1 = 3/20 ∧
    (3/20 : ℚ) < 2 * (1/10) := by
  refine ⟨rfl, ?_, by norm_num⟩
  norm_num [respectRateLimit, rateLimitFailureEffect, rateLimits, lookupSrc]

/-- C9 amended: the enrichment worker's limiter is a static minimum-interval
gate — a guarded call proceeds at `max now (last + interval)`, hence at least
one fixed interval after the recorded previous call, and the proceed time is
recorded as the new last-call time. -/
theorem C9_static_min_interval (st : RateLimiterState) (src : DataSrc)
    (now mi last : ℚ) (hmi : rateLimits src = some mi)
    (hl : lookupSrc st.lastApiCalls src = some last) :
    (respectRateLimit st src now).1 = max now (last + mi) ∧
    last + mi ≤ (respectRateLimit st src now).1 ∧
    lookupSrc (respectRateLimit st src now).2.lastApiCalls src =
      some (respectRateLimit st src now).1 := by
  have h1 : respectRateLimit st src now =
      (if now - last < mi then last + mi else now,
        ⟨(src, if now - last < mi then last + mi else now) ::
          st.lastApiCalls.filter (fun p => p.1 != src)⟩) := by
    unfold respectRateLimit
    rw [hmi]
    dsimp only
    rw [hl]
  rw [h1]
  dsimp only
  refine ⟨?_, ?_, by simp [lookupSrc]⟩
  · by_cases hlt : now - last < mi
    · rw [if_pos hlt, max_eq_right (by linarith)]
    · rw [if_neg hlt, max_eq_left (by linarith)]
  · by_cases hlt : now - last < mi
    · rw [if_pos hlt]
    · rw [if_neg hlt]; linarith

/-- Witness for C9 at a concrete state: the second binance call, issued
0.05s after the first, proceeds only at 0.1s. -/
theorem C9_witness :
    (respectRateLimit ⟨[(DataSrc.binance, 0)]⟩ .binance (1/20)).1 =
      max (1/20) ((0 : ℚ) + 1/10) :=
  (C9_static_min_interval ⟨[(DataSrc.binance, 0)]⟩ .binance (1/20) (1/10) 0
    rfl (by simp [lookupSrc])).1

/-- C7: a candidate that fails hard validation is rejected by the store path
with no write: the stored state is unchanged. -/
theorem C7_rejected_candidate_no_write (now : ℚ) (st : Store) (c : Candidate)
    (h : (validateAndScoreData now c).1 = false) :
    storeCryptoData now st c = (false, st) := by
  unfold storeCryptoData
  cases hs : c.symbol with
  | none => rfl
  | some s =>
      dsimp only
      by_cases hl : (strUpper s).length = 0
      · rw [if_pos hl]
      · rw [if_neg hl]
        simp only [h]
        rw [if_neg (by simp)]

/-- Witness for C7: the out-of-range candidate (price 2e6 > 1e6) is rejected
and the empty store stays empty. -/
theorem C7_witness : storeCryptoData 60 [] sampleBadCandidate = (false, []) :=
  C7_rejected_candidate_no_write 60 [] sampleBadCandidate (by
    norm_num [validateAndScoreData, validateBasicRules, validSymbolFormat,
      checkRuleField, truthy, sampleBadCandidate, sampleGoodCandidate,
      symbolChar, strUpper, strStrip])

theorem mergeVolatile_both (src : Option String) (ev v : ℚ) (h0 : 0 < ev) (hv : v ≠ 0) :
    mergeVolatile src (some ev) (some v) =
      (if |v - ev| < ev * (2/10) then some ((ev + v) / 2)
        else if src = some "binance" ∨ src = some "coingecko" then some v
        else some ev) := by
  unfold mergeVolatile
  dsimp only
  rw [if_neg hv, if_neg (by linarith : ¬ ev = 0), if_pos h0]

/-- C1 counterexample: merging {BTC, price=50000} from the priority-1 source
and then {BTC, price=50050} from the priority-2 source keeps the priority-1
primary source, but the merged price is the average 50025 (the two prices
differ by less than 20%), not the most recent value 50050. -/
theorem C1_counterexample :
    (combineRecord (some (combineRecord none "coinmarketcap" sampleBtc1))
      "cryptocompare" sampleBtc2).primary_source = some "coinmarketcap" ∧
    (combineRecord (some (combineRecord none "coinmarketcap" sampleBtc1))
      "cryptocompare" sampleBtc2).price = some 50025 ∧
    ¬ (combineRecord (some (combineRecord none "coinmarketcap" sampleBtc1))
      "cryptocompare" sampleBtc2).price = some 50050 := by
  have h1 : combineRecord none "coinmarketcap" sampleBtc1 = sampleBtcPrimary := by
    simp [combineRecord, sourcePriority, sampleBtcPrimary]
  have h2 : combineRecord (some (combineRecord none "coinmarketcap" sampleBtc1))
      "cryptocompare" sampleBtc2 = aggMerge sampleBtcPrimary sampleBtc2 := by
    rw [h1]
    simp [combineRecord, sourcePriority, sampleBtcPrimary, sampleBtc1]
  rw [h2]
  refine ⟨by simp [aggMerge, fillStr, sampleBtcPrimary, sampleBtc1, sampleBtc2], ?_, ?_⟩
  · show mergeVolatile sampleBtc2.source sampleBtcPrimary.price sampleBtc2.price = some 50025
    norm_num [mergeVolatile, sampleBtcPrimary, sampleBtc1, sampleBtc2]
  · show ¬ mergeVolatile sampleBtc2.source sampleBtcPrimary.price sampleBtc2.price = some 50050
    norm_num [mergeVolatile, sampleBtcPrimary, sampleBtc1, sampleBtc2]

/-- C1 amended: when the later record comes from a source of equal or lower
priority, the merge keeps the first-seen primary source; price / market-cap /
volume with both sides present, the new one non-zero and the existing one
positive are averaged when within 20% of the existing value and otherwise
replaced only for a binance/coingecko-tagged record; the 24h and 1h
percent-change fields are never overwritten while present and non-zero, and
fill from the new record only when absent. -/
theorem C1_priority_merge_rule (e r : AggRec) (sn ps : String)
    (hps : e.primary_source = some ps)
    (hlow : ¬ sourcePriority sn < e.source_priority.getD 999) :
    (combineRecord (some e) sn r).primary_source = some ps ∧
    (∀ ev pv, e.price = some ev → r.price = some pv → 0 < ev → pv ≠ 0 →
      (combineRecord (some e) sn r).price =
        (if |pv - ev| < ev * (2/10) then some ((ev + pv) / 2)
          else if r.source = some "binance" ∨ r.source = some "coingecko" then some pv
          else some ev)) ∧
    (∀ ev vv, e.volume_24h = some ev → r.volume_24h = some vv → 0 < ev → vv ≠ 0 →
      (combineRecord (some e) sn r).volume_24h =
        (if |vv - ev| < ev * (2/10) then some ((ev + vv) / 2)
          else if r.source = some "binance" ∨ r.source = some "coingecko" then some vv
          else some ev)) ∧
    (∀ x, e.percent_change_24h = some x → x ≠ 0 →
      (combineRecord (some e) sn r).percent_change_24h = some x) ∧
    (∀ x, e.percent_change_1h = some x → x ≠ 0 →
      (combineRecord (some e) sn r).percent_change_1h = some x) ∧
    (e.percent_change_24h = none → ∀ v, r.percent_change_24h = some v → v ≠ 0 →
      (combineRecord (some e) sn r).percent_change_24h = some v) := by
  have hm : combineRecord (some e) sn r = aggMerge e r := by
    unfold combineRecord
    dsimp only
    rw [if_neg hlow]
  rw [hm]
  refine ⟨?_, ?_, ?_, ?_, ?_, ?_⟩
  · show fillStr e.primary_source r.primary_source = some ps
    rw [hps]
    cases r.primary_source <;> rfl
  · intro ev pv he hr h0 hne
    show mergeVolatile r.source e.price r.price = _
    rw [he, hr, mergeVolatile_both r.source ev pv h0 hne]
  · intro ev vv he hr h0 hne
    show mergeVolatile r.source e.volume_24h r.volume_24h = _
    rw [he, hr, mergeVolatile_both r.source ev vv h0 hne]
  · intro x he hx
    show fillNum e.percent_change_24h r.percent_change_24h = some x
    cases hr : r.percent_change_24h with
    | none => simp [fillNum, he]
    | some v =>
        by_cases hv : v = 0
        · simp [fillNum, he, hv]
        · simp [fillNum, he, hv, hx]
  · intro x he hx
    show fillNum e.percent_change_1h r.percent_change_1h = some x
    cases hr : r.percent_change_1h with
    | none => simp [fillNum, he]
    | some v =>
        by_cases hv : v = 0
        · simp [fillNum, he, hv]
        · simp [fillNum, he, hv, hx]
  · intro he v hr hv
    show fillNum e.percent_change_24h r.percent_change_24h = some v
    simp [fillNum, he, hr, hv]

/-- Witness for C1 at the determinism scenario: the merged price is the
average of the two quotes. -/
theorem C1_witness :
    (combineRecord (some sampleBtcPrimary) "cryptocompare" sampleBtc2).price =
      (if |(50050 : ℚ) - 50000| < 50000 * (2/10) then some ((50000 + 50050) / 2)
        else if sampleBtc2.source = some "binance" ∨ sampleBtc2.source = some "coingecko"
          then some 50050 else some 50000) :=
  (C1_priority_merge_rule sampleBtcPrimary sampleBtc2 "cryptocompare" "coinmarketcap" rfl
    (by simp [sourcePriority, sampleBtcPrimary, sampleBtc1])).2.1 50000 50050 rfl rfl
    (by norm_num) (by norm_num)

theorem refreshInv_of_reachable {s : RefreshState} (h : RefreshReachable s) :
    RefreshInv s := by
  induction h with
  | init => exact ⟨by simp, fun _ => rfl, by simp⟩
  | start s hs ih =>
      by_cases hr : s.status = .running
      · simpa [startBackgroundRefresh, hr] using ih
      · obtain ⟨h1, h2, h3⟩ := ih
        have hj : s.jobs = [] := h2 hr
        refine ⟨?_, ?_, ?_⟩
        · simp [startBackgroundRefresh, hr, hj]
        · intro hcontra
          simp [startBackgroundRefresh, hr] at hcontra
        · intro t ht
          simp [startBackgroundRefresh, hr, hj] at ht
          simp [startBackgroundRefresh, hr, ht]
  | finish s tid ok hs htid ih =>
      obtain ⟨h1, h2, h3⟩ := ih
      have hj : s.jobs = [tid] := by
        cases hjobs : s.jobs with
        | nil => rw [hjobs] at htid; cases htid
        | cons a rest =>
            cases hrest : rest with
            | nil =>
                rw [hjobs, hrest] at htid
                have : tid = a := by simpa using htid
                rw [this]
            | cons b rest2 =>
                rw [hjobs, hrest] at h1
                simp at h1
      refine ⟨?_, ?_, ?_⟩ <;> simp [finishRefresh, hj]

/-- C4: the refresh coordinator is single-flight — on every reachable state a
call with a running job returns no id and changes nothing, a call with no
running job returns a fresh id and transitions to running with that single
job registered, and at most one job is ever registered before and after a
call. -/
theorem C4_single_flight_refresh (s : RefreshState) (h : RefreshReachable s) :
    (s.status = .running → startBackgroundRefresh s = (none, s)) ∧
    (s.status ≠ .running →
      (startBackgroundRefresh s).1 = some s.nextId ∧
      (startBackgroundRefresh s).2.status = .running ∧
      (startBackgroundRefresh s).2.jobs = s.jobs ++ [s.nextId] ∧
      s.nextId ∉ s.jobs) ∧
    s.jobs.length ≤ 1 ∧
    (startBackgroundRefresh s).2.jobs.length ≤ 1 := by
  obtain ⟨h1, h2, h3⟩ := refreshInv_of_reachable h
  have hafter := refreshInv_of_reachable (RefreshReachable.start s h)
  refine ⟨?_, ?_, h1, hafter.1⟩
  · intro hr
    simp [startBackgroundRefresh, hr]
  · intro hr
    refine ⟨?_, ?_, ?_, ?_⟩
    · simp [startBackgroundRefresh, hr]
    · simp [startBackgroundRefresh, hr]
    · simp [startBackgroundRefresh, hr]
    · intro hmem
      exact absurd rfl (Nat.ne_of_lt (h3 s.nextId hmem))

/-- Witness for C4 at the constructor state: the first call starts job 0 and
at most one job is registered afterwards. -/
theorem C4_witness :
    (startBackgroundRefresh ⟨.idle, [], 0⟩).1 = some 0 ∧
    (startBackgroundRefresh ⟨.idle, [], 0⟩).2.jobs.length ≤ 1 := by
  have h := C4_single_flight_refresh ⟨.idle, [], 0⟩ RefreshReachable.init
  exact ⟨(h.2.1 (by simp)).1, h.2.2.2⟩

/-- C8: the per-period single-flight flag is broken — the skip path of
`_precompute_period_ranking` returns from inside the `try`, so its `finally`
clears the flag while the first computation is still running.  The trace
below is reachable: invocation A starts (flag set, one computation running),
invocation B hits the already-computing skip whose `finally` resets the flag
(flag clear, A still running), and invocation C then starts a duplicate —
two computations for the same period run concurrently, and between B and C
the flag reads clear while a computation is in progress. -/
theorem C8_flag_reset_allows_duplicate :
    precomputeInvoke ⟨false, 0⟩ = ⟨true, 1⟩ ∧
    precomputeInvoke ⟨true, 1⟩ = ⟨false, 1⟩ ∧
    precomputeInvoke ⟨false, 1⟩ = ⟨true, 2⟩ ∧
    PrecomputeReachable ⟨false, 1⟩ ∧
    PrecomputeReachable ⟨true, 2⟩ := by
  have e1 : precomputeInvoke ⟨false, 0⟩ = ⟨true, 1⟩ := by simp [precomputeInvoke]
  have e2 : precomputeInvoke ⟨true, 1⟩ = ⟨false, 1⟩ := by simp [precomputeInvoke]
  have e3 : precomputeInvoke ⟨false, 1⟩ = ⟨true, 2⟩ := by simp [precomputeInvoke]
  have h1 := PrecomputeReachable.invoke _ PrecomputeReachable.init
  rw [e1] at h1
  have h2 := PrecomputeReachable.invoke _ h1
  rw [e2] at h2
  have h3 := PrecomputeReachable.invoke _ h2
  rw [e3] at h3
  exact ⟨e1, e2, e3, h2, h3⟩

/-- C5: with the snapshot missing, the memory cache empty and a thin record
pool (1 usable row, below the `max(50, offset+limit)` bar), the read does
not fall back to a forced Aggregator pass: `_compute_ranking_on_demand` is
never defined on the class (its intended body is dead code inside
`_compute_ranking_on_demand_fast`), the call raises `AttributeError`, and the
outer handler returns the empty list.  Both the recently-updated fast path
(clock 60, last update 0) and the plain on-demand path (clock 600) end empty,
and the thin-pool fallback itself surfaces the `AttributeError`. -/
theorem C5_thin_pool_read_returns_empty :
    getOptimizedCryptoRanking sampleThinEnv = [] ∧
    computeRankingOnDemandFast [sampleAtHigh] .p24h 50 0 =
      .error .attributeError ∧
    getOptimizedCryptoRanking sampleThinEnvStale = [] := by
  refine ⟨?_, ?_, ?_⟩
  · norm_num [getOptimizedCryptoRanking, isDataFreshForPeriod, sampleThinEnv,
      periodFreshThreshold, computeRankingOnDemandFast, computeRankingOnDemand]
  · norm_num [computeRankingOnDemandFast, computeRankingOnDemand]
  · norm_num [getOptimizedCryptoRanking, isDataFreshForPeriod, sampleThinEnv,
      sampleThinEnvStale, periodFreshThreshold, computeRankingOnDemandFast,
      computeRankingOnDemand]

theorem ite_nonneg {p : Prop} [Decidable p] {a b : ℚ} (ha : 0 ≤ a) (hb : 0 ≤ b) :
    0 ≤ if p then a else b := by
  split_ifs <;> assumption

theorem completenessScore_bounds (c : Candidate) :
    0 ≤ completenessScore c ∧ completenessScore c ≤ 100 := by
  unfold completenessScore
  refine ⟨le_min (by norm_num) ?_, min_le_left _ _⟩
  have hf : (0:ℚ) ≤
      (if c.symbol.isSome then 2 else 0) + (if c.name.isSome then 2 else 0) +
      (if c.price_usd.isSome then 2 else 0) + (if c.market_cap_usd.isSome then 2 else 0) +
      (if c.percent_change_24h.isSome then 2 else 0) +
      (if c.volume_24h_usd.isSome then 1 else 0) + (if c.percent_change_7d.isSome then 1 else 0) +
      (if c.percent_change_30d.isSome then 1 else 0) + (if c.max_price_1y.isSome then 1 else 0) +
      (if c.min_price_1y.isSome then 1 else 0) := by
    repeat refine add_nonneg ?_ (ite_nonneg (by norm_num) (by norm_num))
    exact ite_nonneg (by norm_num) (by norm_num)
  positivity

theorem freshnessStep_bounds (a : ℚ) : 0 ≤ freshnessStep a ∧ freshnessStep a ≤ 100 := by
  unfold freshnessStep
  split_ifs <;> norm_num

theorem freshnessScore_bounds (now : ℚ) (c : Candidate) :
    0 ≤ freshnessScore now c ∧ freshnessScore now c ≤ 100 := by
  unfold freshnessScore
  dsimp only
  cases hts : (match c.last_updated with | some t => [t] | none => []) ++
      c.source_timestamps.map Prod.snd with
  | nil => norm_num
  | cons t rest => exact freshnessStep_bounds _

theorem supplyPenalty_nonneg (c : Candidate) : 0 ≤ supplyPenalty c := by
  unfold supplyPenalty
  dsimp only
  exact ite_nonneg (ite_nonneg (by norm_num) (by norm_num)) (by norm_num)

theorem extremeChangePenalty_nonneg (c : Candidate) : 0 ≤ extremeChangePenalty c := by
  unfold extremeChangePenalty
  exact ite_nonneg (by norm_num) (by norm_num)

theorem variancePenalty_nonneg (c : Candidate) : 0 ≤ variancePenalty c := by
  unfold variancePenalty
  exact ite_nonneg (by norm_num) (by norm_num)

theorem extremaPenalty_nonneg (c : Candidate) : 0 ≤ extremaPenalty c := by
  unfold extremaPenalty
  refine ite_nonneg ?_ (by norm_num)
  exact add_nonneg (ite_nonneg (by norm_num) (by norm_num))
    (ite_nonneg (by norm_num) (by norm_num))

theorem consistencyScore_bounds (c : Candidate) :
    0 ≤ consistencyScore c ∧ consistencyScore c ≤ 100 := by
  unfold consistencyScore
  refine ⟨le_max_left _ _, max_le (by norm_num) ?_⟩
  have h1 := supplyPenalty_nonneg c
  have h2 := extremeChangePenalty_nonneg c
  have h3 := variancePenalty_nonneg c
  have h4 := extremaPenalty_nonneg c
  linarith

theorem accuracyScore_bounds (c : Candidate) :
    0 ≤ accuracyScore c ∧ accuracyScore c ≤ 100 := by
  unfold accuracyScore
  exact ⟨le_max_left _ _, max_le (by norm_num) (min_le_left _ _)⟩

theorem weightedQuality_bounds (now : ℚ) (c : Candidate) :
    0 ≤ weightedQuality now c ∧ weightedQuality now c ≤ 100 := by
  obtain ⟨h1a, h1b⟩ := completenessScore_bounds c
  obtain ⟨h2a, h2b⟩ := freshnessScore_bounds now c
  obtain ⟨h3a, h3b⟩ := consistencyScore_bounds c
  obtain ⟨h4a, h4b⟩ := accuracyScore_bounds c
  unfold weightedQuality
  constructor <;> nlinarith

theorem validate_true_iff (now : ℚ) (c : Candidate) :
    (validateAndScoreData now c).1 = true ↔ validateBasicRules c = true := by
  unfold validateAndScoreData
  by_cases h : validateBasicRules c = true
  · rw [if_pos h]; simp [h]
  · rw [if_neg h]; simp [h]

theorem validate_level_matches (now : ℚ) (c : Candidate) :
    (validateAndScoreData now c).2.2 = qualityLevel (validateAndScoreData now c).2.1 := by
  unfold validateAndScoreData
  by_cases h : validateBasicRules c = true
  · rw [if_pos h]
  · rw [if_neg h]
    norm_num [qualityLevel]

theorem validate_score_bounds (now : ℚ) (c : Candidate) :
    0 ≤ (validateAndScoreData now c).2.1 ∧ (validateAndScoreData now c).2.1 ≤ 100 := by
  unfold validateAndScoreData
  by_cases h : validateBasicRules c = true
  · rw [if_pos h]
    exact weightedQuality_bounds now c
  · rw [if_neg h]
    norm_num

theorem findRec_mem {st : Store} {sym : String} {r : StoredRec}
    (h : findRec st sym = some r) : r ∈ st := by
  induction st with
  | nil => cases h
  | cons a rest ih =>
      unfold findRec at h
      by_cases ha : a.symbol = sym
      · rw [if_pos ha] at h
        exact (Option.some_injective _ h) ▸ List.mem_cons_self a rest
      · rw [if_neg ha] at h
        exact List.mem_cons_of_mem a (ih h)

theorem getCryptoData_mem {st : Store} {sym : String} {fields : List String}
    {now : ℚ} {r : StoredRec} (h : getCryptoData st sym fields now = some r) :
    r ∈ st := by
  unfold getCryptoData at h
  cases hfind : findRec st (strUpper sym) with
  | none => rw [hfind] at h; cases h
  | some r1 =>
      rw [hfind] at h
      dsimp only at h
      have hr : r1 = r := by
        by_cases hemp : fields.isEmpty
        · rw [if_pos hemp] at h
          by_cases hq : r1.data_quality = DataQuality.invalid
          · rw [if_pos hq] at h; cases h
          · rw [if_neg hq] at h; exact Option.some_injective _ h
        · rw [if_neg hemp] at h
          by_cases hfr : checkDataFreshness r1 fields now = true
          · rw [if_pos hfr] at h
            by_cases hq : r1.data_quality = DataQuality.invalid
            · rw [if_pos hq] at h; cases h
            · rw [if_neg hq] at h; exact Option.some_injective _ h
          · rw [if_neg hfr] at h; cases h
      exact hr ▸ findRec_mem hfind

theorem mem_writeRec {st : Store} {r0 r : StoredRec} (h : r ∈ writeRec st r0) :
    r = r0 ∨ r ∈ st := by
  unfold writeRec at h
  rcases List.mem_append.mp h with hl | hr
  · exact Or.inr (List.mem_of_mem_filter hl)
  · exact Or.inl (by simpa using hr)

theorem storeCryptoData_preserves_inv (now : ℚ) (st : Store) (c : Candidate)
    (h : QualityInv st) : QualityInv (storeCryptoData now st c).2 := by
  unfold storeCryptoData
  cases hs : c.symbol with
  | none => exact h
  | some s =>
      dsimp only
      by_cases hl : (strUpper s).length = 0
      · rw [if_pos hl]; exact h
      · rw [if_neg hl]
        by_cases hv : (validateAndScoreData now c).1 = true
        · rw [if_pos hv]
          cases hget : getCryptoData st (strUpper s) [] now with
          | none =>
              dsimp only
              intro r hr
              rcases mem_writeRec hr with he | hm
              · subst he
                refine ⟨(validate_score_bounds now c).1, (validate_score_bounds now c).2, ?_⟩
                exact validate_level_matches now c
              · exact h r hm
          | some ex =>
              dsimp only
              intro r hr
              rcases mem_writeRec hr with he | hm
              · subst he
                show 0 ≤ (dbMergeRec now ex c).quality_score ∧ _
                unfold dbMergeRec
                dsimp only
                by_cases hmv : (validateAndScoreData now (mergedCandidate ex c)).1 = true
                · rw [if_pos hmv, if_pos hmv]
                  refine ⟨(validate_score_bounds now _).1, (validate_score_bounds now _).2, ?_⟩
                  exact validate_level_matches now _
                · rw [if_neg hmv, if_neg hmv]
                  exact h ex (getCryptoData_mem hget)
              · exact h r hm
        · rw [if_neg hv]; exact h

theorem reachable_quality_inv {st : Store} (h : ReachableStore st) : QualityInv st := by
  induction h with
  | empty => intro r hr; cases hr
  | store st now c hs ih => exact storeCryptoData_preserves_inv now st c ih

/-- C3: every record in a reachable store carries a quality score in [0, 100]
whose stored level is the fixed-threshold function of the score; every score
produced by a successful validation is the weighted sum (0.30 / 0.25 / 0.25 /
0.20) of sub-scores each lying in [0, 100] and therefore lies in [0, 100]
itself; and the thresholds map 85 to high, 65 to medium, 45 to low and 10 to
invalid, with the exact bracket characterization. -/
theorem C3_quality_invariant (st : Store) (hst : ReachableStore st)
    (r : StoredRec) (hr : r ∈ st) (now : ℚ) (c : Candidate)
    (hv : (validateAndScoreData now c).1 = true) :
    (0 ≤ r.quality_score ∧ r.quality_score ≤ 100 ∧
      r.data_quality = qualityLevel r.quality_score) ∧
    ((validateAndScoreData now c).2.1 = weightedQuality now c ∧
      0 ≤ (validateAndScoreData now c).2.1 ∧ (validateAndScoreData now c).2.1 ≤ 100 ∧
      (validateAndScoreData now c).2.2 = qualityLevel (validateAndScoreData now c).2.1) ∧
    (0 ≤ completenessScore c ∧ completenessScore c ≤ 100) ∧
    (0 ≤ freshnessScore now c ∧ freshnessScore now c ≤ 100) ∧
    (0 ≤ consistencyScore c ∧ consistencyScore c ≤ 100) ∧
    (0 ≤ accuracyScore c ∧ accuracyScore c ≤ 100) ∧
    (qualityLevel 85 = .high ∧ qualityLevel 65 = .medium ∧
      qualityLevel 45 = .low ∧ qualityLevel 10 = .invalid) ∧
    (∀ q : ℚ, (qualityLevel q = .high ↔ 80 ≤ q) ∧
      (qualityLevel q = .medium ↔ 60 ≤ q ∧ q < 80) ∧
      (qualityLevel q = .low ↔ 30 ≤ q ∧ q < 60) ∧
      (qualityLevel q = .invalid ↔ q < 30)) := by
  refine ⟨reachable_quality_inv hst r hr, ?_, completenessScore_bounds c,
    freshnessScore_bounds now c, consistencyScore_bounds c, accuracyScore_bounds c,
    ?_, ?_⟩
  · refine ⟨?_, (validate_score_bounds now c).1, (validate_score_bounds now c).2,
      validate_level_matches now c⟩
    have hb := (validate_true_iff now c).mp hv
    unfold validateAndScoreData
    rw [if_pos hb]
  · norm_num [qualityLevel]
  · intro q
    unfold qualityLevel
    split_ifs with h1 h2 h3
    · exact ⟨iff_of_true rfl h1,
        iff_of_false (by simp) (by rintro ⟨-, hb⟩; linarith),
        iff_of_false (by simp) (by rintro ⟨-, hb⟩; linarith),
        iff_of_false (by simp) (by intro hb; linarith)⟩
    · exact ⟨iff_of_false (by simp) h1,
        iff_of_true rfl ⟨h2, not_le.mp h1⟩,
        iff_of_false (by simp) (by rintro ⟨-, hb⟩; linarith),
        iff_of_false (by simp) (by intro hb; linarith)⟩
    · exact ⟨iff_of_false (by simp) h1,
        iff_of_false (by simp) (by rintro ⟨ha, -⟩; exact h2 ha),
        iff_of_true rfl ⟨h3, not_le.mp h2⟩,
        iff_of_false (by simp) (by intro hb; linarith)⟩
    · exact ⟨iff_of_false (by simp) h1,
        iff_of_false (by simp) (by rintro ⟨ha, -⟩; exact h2 ha),
        iff_of_false (by simp) (by rintro ⟨ha, -⟩; exact h3 ha),
        iff_of_true rfl (not_le.mp h3)⟩

/-- Witness for C3: storing the concrete candidate into the empty store
yields one row with score 92 and level high, and the invariant holds on it. -/
theorem C3_witness :
    (validateAndScoreData 60 sampleGoodCandidate).1 = true ∧
    (validateAndScoreData 60 sampleGoodCandidate).2.1 = 92 ∧
    0 ≤ sampleStoredRow.quality_score ∧ sampleStoredRow.quality_score ≤ 100 ∧
    sampleStoredRow.data_quality = qualityLevel sampleStoredRow.quality_score := by
  have hv : validateAndScoreData 60 sampleGoodCandidate = (true, 92, .high) := by
    norm_num [validateAndScoreData, validateBasicRules, validSymbolFormat,
      checkRuleField, truthy, weightedQuality, completenessScore, freshnessScore,
      freshnessStep, consistencyScore, supplyPenalty, extremeChangePenalty,
      variancePenalty, extremaPenalty, presentChanges, accuracyScore, qualityLevel,
      sampleGoodCandidate, symbolChar, strUpper, strStrip, min_def, max_def,
      lookupQ, sampleStdevGT]
    decide
  have heq : sampleStore = [sampleStoredRow] := by
    unfold sampleStore storeCryptoData
    rw [show sampleGoodCandidate.symbol = some "BTC" from rfl]
    dsimp only
    rw [if_neg (by norm_num [strUpper]), hv]
    norm_num [getCryptoData, findRec, writeRec, sampleStoredRow]
  have hre : ReachableStore sampleStore :=
    ReachableStore.store [] 60 sampleGoodCandidate ReachableStore.empty
  have hmem : sampleStoredRow ∈ sampleStore := by
    rw [heq]
    exact List.mem_singleton.mpr rfl
  have h := C3_quality_invariant sampleStore hre sampleStoredRow hmem 60
    sampleGoodCandidate (by rw [hv])
  exact ⟨by rw [hv], by rw [hv], h.1.1, h.1.2.1, h.1.2.2⟩

theorem insertDesc_perm (x : Crypto) (l : List Crypto) :
    (insertDesc x l).Perm (x :: l) := by
  induction l with
  | nil => exact List.Perm.refl _
  | cons y ys ih =>
      unfold insertDesc
      by_cases h : sortKey x < sortKey y
      · rw [if_pos h]
        exact (List.Perm.cons y ih).trans (List.Perm.swap x y ys)
      · rw [if_neg h]

theorem sortDesc_perm (l : List Crypto) : (sortDesc l).Perm l := by
  induction l with
  | nil => exact List.Perm.refl _
  | cons x xs ih =>
      unfold sortDesc
      exact (insertDesc_perm x (sortDesc xs)).trans (List.Perm.cons x ih)

theorem insertDesc_sorted (x : Crypto) (l : List Crypto)
    (h : l.Pairwise (fun a b => sortKey b ≤ sortKey a)) :
    (insertDesc x l).Pairwise (fun a b => sortKey b ≤ sortKey a) := by
  induction l with
  | nil => simp [insertDesc]
  | cons y ys ih =>
      rw [List.pairwise_cons] at h
      obtain ⟨hy, hys⟩ := h
      unfold insertDesc
      by_cases hlt : sortKey x < sortKey y
      · rw [if_pos hlt, List.pairwise_cons]
        refine ⟨?_, ih hys⟩
        intro b hb
        rcases List.mem_cons.mp ((insertDesc_perm x ys).mem_iff.mp hb) with hbx | hbm
        · exact hbx ▸ hlt.le
        · exact hy b hbm
      · rw [if_neg hlt, List.pairwise_cons]
        refine ⟨?_, List.pairwise_cons.mpr ⟨hy, hys⟩⟩
        intro b hb
        rcases List.mem_cons.mp hb with hby | hbm
        · exact hby ▸ not_lt.mp hlt
        · exact le_trans (hy b hbm) (not_lt.mp hlt)

theorem sortDesc_sorted (l : List Crypto) :
    (sortDesc l).Pairwise (fun a b => sortKey b ≤ sortKey a) := by
  induction l with
  | nil => simp [sortDesc]
  | cons x xs ih => exact insertDesc_sorted x (sortDesc xs) ih

theorem insertDesc_filter_eq (x : Crypto) (l : List Crypto) (k : ℚ)
    (hx : sortKey x = k) :
    (insertDesc x l).filter (fun c => decide (sortKey c = k)) =
      x :: l.filter (fun c => decide (sortKey c = k)) := by
  induction l with
  | nil => simp [insertDesc, hx]
  | cons y ys ih =>
      unfold insertDesc
      by_cases h : sortKey x < sortKey y
      · rw [if_pos h]
        have hy : ¬ (sortKey y = k) := by
          intro he
          rw [← hx] at he
          exact absurd (he ▸ h) (lt_irrefl _)
        simp only [List.filter_cons, decide_eq_true_eq]
        rw [if_neg (by simpa using hy), ih]
        rw [if_neg (by simpa using hy)]
      · rw [if_neg h]
        simp only [List.filter_cons, decide_eq_true_eq]
        rw [if_pos (by simpa using hx)]

theorem insertDesc_filter_ne (x : Crypto) (l : List Crypto) (k : ℚ)
    (hx : ¬ sortKey x = k) :
    (insertDesc x l).filter (fun c => decide (sortKey c = k)) =
      l.filter (fun c => decide (sortKey c = k)) := by
  induction l with
  | nil => simp [insertDesc, hx]
  | cons y ys ih =>
      unfold insertDesc
      by_cases h : sortKey x < sortKey y
      · rw [if_pos h]
        simp only [List.filter_cons, decide_eq_true_eq]
        by_cases hy : sortKey y = k
        · rw [if_pos (by simpa using hy), ih, if_pos (by simpa using hy)]
        · rw [if_neg (by simpa using hy), ih, if_neg (by simpa using hy)]
      · rw [if_neg h]
        simp only [List.filter_cons, decide_eq_true_eq]
        rw [if_neg (by simpa using hx)]

theorem sortDesc_filter (l : List Crypto) (k : ℚ) :
    (sortDesc l).filter (fun c => decide (sortKey c = k)) =
      l.filter (fun c => decide (sortKey c = k)) := by
  induction l with
  | nil => rfl
  | cons x xs ih =>
      unfold sortDesc
      by_cases hx : sortKey x = k
      · rw [insertDesc_filter_eq x (sortDesc xs) k hx, ih]
        simp only [List.filter_cons, decide_eq_true_eq]
        rw [if_pos (by simpa using hx)]
      · rw [insertDesc_filter_ne x (sortDesc xs) k hx, ih]
        simp only [List.filter_cons, decide_eq_true_eq]
        rw [if_neg (by simpa using hx)]

theorem assignRanksFrom_map_clearRank (n : ℕ) (l : List Crypto) :
    (assignRanksFrom n l).map clearRank = l.map clearRank := by
  induction l generalizing n with
  | nil => rfl
  | cons c cs ih =>
      unfold assignRanksFrom
      rw [List.map_cons, List.map_cons, ih (n + 1)]
      rfl

theorem assignRanksFrom_length (n : ℕ) (l : List Crypto) :
    (assignRanksFrom n l).length = l.length := by
  induction l generalizing n with
  | nil => rfl
  | cons c cs ih =>
      unfold assignRanksFrom
      rw [List.length_cons, List.length_cons, ih (n + 1)]

theorem assignRanksFrom_rank_map (n : ℕ) (l : List Crypto) :
    (assignRanksFrom n l).map (fun c => c.rank) =
      (List.range l.length).map (fun i => some (n + i)) := by
  induction l generalizing n with
  | nil => rfl
  | cons c cs ih =>
      unfold assignRanksFrom
      rw [List.map_cons, ih (n + 1), List.length_cons, List.range_succ_eq_map,
        List.map_cons, List.map_map]
      refine congrArg₂ List.cons (by rw [Nat.add_zero]) ?_
      refine List.map_congr_left ?_
      intro i _
      show some (n + 1 + i) = some (n + (i + 1))
      rw [Nat.add_assoc, Nat.add_comm 1 i]

theorem assignRanksFrom_forall {P : Crypto → Prop}
    (hP : ∀ (c : Crypto) (k : ℕ), P c → P { c with rank := some k })
    (n : ℕ) (l : List Crypto) (hl : ∀ c ∈ l, P c) :
    ∀ c ∈ assignRanksFrom n l, P c := by
  induction l generalizing n with
  | nil => intro c hc; cases hc
  | cons a as ih =>
      intro c hc
      unfold assignRanksFrom at hc
      rcases List.mem_cons.mp hc with he | hm
      · exact he ▸ hP a n (hl a (List.mem_cons_self a as))
      · exact ih (n + 1) (fun d hd => hl d (List.mem_cons_of_mem a hd)) c hm

theorem assignRanksFrom_map_sortKey (n : ℕ) (l : List Crypto) :
    (assignRanksFrom n l).map sortKey = l.map sortKey := by
  induction l generalizing n with
  | nil => rfl
  | cons c cs ih =>
      unfold assignRanksFrom
      rw [List.map_cons, List.map_cons, ih (n + 1)]
      rfl

theorem sortDesc_of_sorted (l : List Crypto)
    (h : l.Pairwise (fun a b => sortKey b ≤ sortKey a)) : sortDesc l = l := by
  induction l with
  | nil => rfl
  | cons x xs ih =>
      rw [List.pairwise_cons] at h
      obtain ⟨hx, hxs⟩ := h
      unfold sortDesc
      rw [ih hxs]
      cases hxs2 : xs with
      | nil => rfl
      | cons y ys =>
          unfold insertDesc
          rw [if_neg (not_lt.mpr (hx y (by rw [hxs2]; exact List.mem_cons_self y ys)))]

theorem assignRanksFrom_idem (n : ℕ) (l : List Crypto) :
    assignRanksFrom n (assignRanksFrom n l) = assignRanksFrom n l := by
  induction l generalizing n with
  | nil => rfl
  | cons c cs ih =>
      have h1 : assignRanksFrom n (c :: cs) =
          { c with rank := some n } :: assignRanksFrom (n + 1) cs := rfl
      rw [h1]
      have h2 : assignRanksFrom n
          ({ c with rank := some n } :: assignRanksFrom (n + 1) cs) =
          { c with rank := some n } :: assignRanksFrom (n + 1)
            (assignRanksFrom (n + 1) cs) := rfl
      rw [h2, ih (n + 1)]

theorem scoreCrypto_fix (c : Crypto) (p : Period) :
    scoreCrypto (scoreCrypto c p) p = scoreCrypto c p := rfl

theorem scoreCrypto_rank_comm (c : Crypto) (p : Period) (k : Option ℕ) :
    scoreCrypto { c with rank := k } p = { scoreCrypto c p with rank := k } := rfl

theorem filter_over_map (f : Crypto → Crypto) (p : Crypto → Bool) (l : List Crypto) :
    (l.map f).filter p = (l.filter (fun c => p (f c))).map f := by
  induction l with
  | nil => rfl
  | cons c cs ih =>
      rw [List.map_cons, List.filter_cons, List.filter_cons]
      by_cases h : p (f c) = true
      · rw [if_pos h, if_pos h, List.map_cons, ih]
      · rw [if_neg h, if_neg h, ih]

/-- C2: `calculate_scores` keeps exactly the records with a strictly
positive price (as a permutation of the scored survivors, modulo rank), its
output is sorted by descending total score, ties keep the original input
order (the equal-key sublists of output and pre-sort pool coincide, modulo
rank), ranks are assigned 1..N in output order, and the computation is
deterministic and idempotent: re-running it on its own (mutated-in-place)
output reproduces the same ordering and ranks. -/
theorem C2_calculate_scores_spec (l : List Crypto) (p : Period) :
    ((calculateScores l p).map clearRank).Perm ((scoredPool l p).map clearRank) ∧
    (∀ c ∈ calculateScores l p, 0 < c.price_usd) ∧
    (calculateScores l p).Pairwise (fun a b => sortKey b ≤ sortKey a) ∧
    (∀ k : ℚ,
      ((calculateScores l p).map clearRank).filter (fun c => decide (sortKey c = k)) =
      ((scoredPool l p).map clearRank).filter (fun c => decide (sortKey c = k))) ∧
    (calculateScores l p).map (fun c => c.rank) =
      (List.range (calculateScores l p).length).map (fun i => some (i + 1)) ∧
    calculateScores (calculateScores l p) p = calculateScores l p := by
  have hdef : calculateScores l p = assignRanksFrom 1 (sortDesc (scoredPool l p)) := rfl
  have hpos : ∀ c ∈ calculateScores l p, 0 < c.price_usd := by
    rw [hdef]
    refine assignRanksFrom_forall (fun c k h => h) 1 _ ?_
    intro c hc
    obtain ⟨c0, hc0, he⟩ := List.mem_map.mp ((sortDesc_perm _).mem_iff.mp hc)
    have hp0 := of_decide_eq_true (List.mem_filter.mp hc0).2
    rw [← he]
    exact hp0
  have hsorted : (calculateScores l p).Pairwise (fun a b => sortKey b ≤ sortKey a) := by
    rw [hdef]
    have h1 : ((assignRanksFrom 1 (sortDesc (scoredPool l p))).map sortKey).Pairwise
        (fun a b : ℚ => b ≤ a) := by
      rw [assignRanksFrom_map_sortKey]
      exact List.pairwise_map.mpr (sortDesc_sorted _)
    exact List.pairwise_map.mp h1
  have hperm : ((calculateScores l p).map clearRank).Perm
      ((scoredPool l p).map clearRank) := by
    rw [hdef, assignRanksFrom_map_clearRank]
    exact (sortDesc_perm (scoredPool l p)).map clearRank
  have hstab : ∀ k : ℚ,
      ((calculateScores l p).map clearRank).filter (fun c => decide (sortKey c = k)) =
      ((scoredPool l p).map clearRank).filter (fun c => decide (sortKey c = k)) := by
    intro k
    rw [hdef, assignRanksFrom_map_clearRank,
      filter_over_map clearRank _ (sortDesc (scoredPool l p)),
      filter_over_map clearRank _ (scoredPool l p)]
    show ((sortDesc (scoredPool l p)).filter (fun c => decide (sortKey c = k))).map
        clearRank =
      ((scoredPool l p).filter (fun c => decide (sortKey c = k))).map clearRank
    rw [sortDesc_filter]
  have hranks : (calculateScores l p).map (fun c => c.rank) =
      (List.range (calculateScores l p).length).map (fun i => some (i + 1)) := by
    rw [hdef, assignRanksFrom_rank_map, assignRanksFrom_length]
    refine List.map_congr_left ?_
    intro i _
    rw [Nat.add_comm]
  have hfix : ∀ c ∈ calculateScores l p, scoreCrypto c p = c := by
    rw [hdef]
    refine assignRanksFrom_forall ?_ 1 _ ?_
    · intro c k h
      calc scoreCrypto { c with rank := some k } p
          = { scoreCrypto c p with rank := some k } := scoreCrypto_rank_comm c p (some k)
        _ = { c with rank := some k } := by rw [h]
    · intro c hc
      obtain ⟨c0, hc0, he⟩ := List.mem_map.mp ((sortDesc_perm _).mem_iff.mp hc)
      rw [← he]
      exact scoreCrypto_fix c0 p
  have hidem : calculateScores (calculateScores l p) p = calculateScores l p := by
    show assignRanksFrom 1 (sortDesc
      (((calculateScores l p).filter (fun c => decide (0 < c.price_usd))).map
        (scoreCrypto · p))) = calculateScores l p
    have hfil : (calculateScores l p).filter (fun c => decide (0 < c.price_usd)) =
        calculateScores l p :=
      List.filter_eq_self.mpr (fun c hc => decide_eq_true (hpos c hc))
    rw [hfil]
    have hmapeq : (calculateScores l p).map (fun c => scoreCrypto c p) =
        (calculateScores l p).map id := List.map_congr_left (fun a ha => hfix a ha)
    show assignRanksFrom 1 (sortDesc ((calculateScores l p).map
      (fun c => scoreCrypto c p))) = calculateScores l p
    rw [hmapeq, List.map_id, sortDesc_of_sorted _ hsorted, hdef]
    exact assignRanksFrom_idem 1 _
  exact ⟨hperm, hpos, hsorted, hstab, hranks, hidem⟩

/-- Witness for C2 at a concrete two-record list: the output keeps only
positive-price records and rescoring the output reproduces it. -/
theorem C2_witness :
    calculateScores (calculateScores [sampleAtHigh, sampleDeepDrawdown] .p24h) .p24h =
      calculateScores [sampleAtHigh, sampleDeepDrawdown] .p24h ∧
    ∀ c ∈ calculateScores [sampleAtHigh, sampleDeepDrawdown] .p24h, 0 < c.price_usd :=
  ⟨(C2_calculate_scores_spec [sampleAtHigh, sampleDeepDrawdown] .p24h).2.2.2.2.2,
    (C2_calculate_scores_spec [sampleAtHigh, sampleDeepDrawdown] .p24h).2.1⟩

end CryptoRebound
